import Mathlib

/-!
Shallow embedding of the analytics core of the Oil-Analysis repository
(src/services/dataProcessor.ts, called from src/App.tsx), together with
theorems checking the design specification's claims against it.

Modelling conventions:
* JavaScript numbers are modelled by real numbers; the IEEE special values
  NaN / Infinity / -Infinity, which the code can produce through division by
  zero, are modelled explicitly by the JsNum type where they matter
  (the Pearson correlation entries).
* Code that can throw (the simple-statistics library functions mean,
  variance, sampleVariance, sampleCovariance throw on too-small inputs) is
  modelled in the Except String monad; a thrown Error is an .error value.
* The external libraries simple-statistics, ml-kmeans and ml-pca are not
  part of the repository.  The small simple-statistics functions the code
  uses are modelled faithfully below (ssMean, ssVariance, ...).  The
  k-means clustering routine and the fitted PCA projection are kept
  abstract: every theorem about the pipeline is stated for an arbitrary
  kmeansFn / pcaFn, constrained only by the well-formedness facts the
  libraries guarantee (label range, output length).
* The textual run log assembled by performClustering (string formatting of
  floating point numbers) is presentation output and is not modelled; the
  ClusterResult structure below carries every other field of the source's
  ClusterResult.
-/

/-- A spreadsheet row: column name to optional numeric value.  The source
coerces cells with Number(d[col]) || 0, so a missing / null / non-numeric
cell (modelled as none) reads as 0. -/
def DataRow : Type := String → Option ℝ

/-- Numeric coercion of a cell, modelling Number(d[col]) || 0. -/
def cellNum (d : DataRow) (col : String) : ℝ := (d col).getD 0

/-- JavaScript number results of a division chain: a finite value, NaN, or
a signed infinity. -/
inductive JsNum where
  | num : ℝ → JsNum
  | nan : JsNum
  | posInf : JsNum
  | negInf : JsNum

/-- JavaScript division on JsNum (IEEE-754 rules for the cases that can
arise here; the sign of zero is not modelled, a zero denominator is +0). -/
noncomputable def jsDiv : JsNum → JsNum → JsNum
  | JsNum.nan, _ => JsNum.nan
  | _, JsNum.nan => JsNum.nan
  | JsNum.num a, JsNum.num b =>
      if b = 0 then
        (if a = 0 then JsNum.nan else if 0 < a then JsNum.posInf else JsNum.negInf)
      else JsNum.num (a / b)
  | JsNum.posInf, JsNum.num b => if 0 ≤ b then JsNum.posInf else JsNum.negInf
  | JsNum.negInf, JsNum.num b => if 0 ≤ b then JsNum.negInf else JsNum.posInf
  | JsNum.num _, JsNum.posInf => JsNum.num 0
  | JsNum.num _, JsNum.negInf => JsNum.num 0
  | JsNum.posInf, JsNum.posInf => JsNum.nan
  | JsNum.posInf, JsNum.negInf => JsNum.nan
  | JsNum.negInf, JsNum.posInf => JsNum.nan
  | JsNum.negInf, JsNum.negInf => JsNum.nan

/-- Arithmetic mean as a plain real-valued function (sum / length). -/
noncomputable def meanVal (l : List ℝ) : ℝ := l.sum / l.length

/-- Population variance (divisor n), the formula of simple-statistics
variance: sumNthPowerDeviations(x, 2) / x.length. -/
noncomputable def popVarV (l : List ℝ) : ℝ :=
  ((l.map (fun x => (x - meanVal l) ^ 2)).sum) / l.length

/-- Sample variance (divisor n - 1), the formula of simple-statistics
sampleVariance. -/
noncomputable def sampleVarV (l : List ℝ) : ℝ :=
  ((l.map (fun x => (x - meanVal l) ^ 2)).sum) / ((l.length : ℝ) - 1)

/-- Model of simple-statistics mean: throws on an empty list. -/
noncomputable def ssMean (l : List ℝ) : Except String ℝ :=
  if l.length = 0 then .error "mean requires at least one data point"
  else .ok (meanVal l)

/-- Model of simple-statistics variance (population variance, divisor n):
throws on an empty list. -/
noncomputable def ssVariance (l : List ℝ) : Except String ℝ :=
  if l.length = 0 then .error "variance requires at least one data point"
  else .ok (popVarV l)

/-- Model of simple-statistics standardDeviation: 0 for a single point,
otherwise the square root of the population variance. -/
noncomputable def ssStandardDeviation (l : List ℝ) : Except String ℝ :=
  if l.length = 1 then .ok 0
  else do
    let v ← ssVariance l
    pure (Real.sqrt v)

/-- Model of simple-statistics sampleVariance (divisor n - 1): throws on
fewer than two data points. -/
noncomputable def ssSampleVariance (l : List ℝ) : Except String ℝ :=
  if l.length < 2 then .error "sampleVariance requires at least two data points"
  else .ok (sampleVarV l)

/-- Model of simple-statistics sampleStandardDeviation. -/
noncomputable def ssSampleStandardDeviation (l : List ℝ) : Except String ℝ := do
  let v ← ssSampleVariance l
  pure (Real.sqrt v)

/-- Model of simple-statistics sampleCovariance (divisor n - 1): throws on
unequal lengths or fewer than two data points. -/
noncomputable def ssSampleCovariance (x y : List ℝ) : Except String ℝ :=
  if x.length ≠ y.length then
    .error "sampleCovariance requires samples with equal lengths"
  else if x.length < 2 then
    .error "sampleCovariance requires at least two data points in each sample"
  else
    .ok (((List.zipWith (fun a b => (a - meanVal x) * (b - meanVal y)) x y).sum) /
      ((x.length : ℝ) - 1))

/-- Model of simple-statistics sampleCorrelation:
sampleCovariance(x, y) / sampleStandardDeviation(x) / sampleStandardDeviation(y).
The divisions are JavaScript divisions: a zero standard deviation produces
NaN (0/0), it does not throw. -/
noncomputable def ssSampleCorrelation (x y : List ℝ) : Except String JsNum := do
  let cov ← ssSampleCovariance x y
  let xstd ← ssSampleStandardDeviation x
  let ystd ← ssSampleStandardDeviation y
  pure (jsDiv (jsDiv (JsNum.num cov) (JsNum.num xstd)) (JsNum.num ystd))

/-- Result record of calculatePearson (types.ts PearsonResult).  The matrix
Record is modelled as an association list in construction order; the source
builds matrix[col1][col2] for col1, col2 ranging over selectedCols, and for
duplicated column names every occurrence recomputes the identical row, so
first-match lookup agrees with the JavaScript record's last-write value. -/
structure PearsonResult where
  matrix : List (String × List (String × JsNum))
  columns : List String
  datasetName : String

/-- One entry of the Pearson matrix: the source wraps ss.sampleCorrelation
in try/catch and falls back to 1 on the diagonal and 0 elsewhere when the
library throws. -/
noncomputable def pearsonEntry (data : List DataRow) (col1 col2 : String) : JsNum :=
  let val1 := data.map (fun d => cellNum d col1)
  let val2 := data.map (fun d => cellNum d col2)
  match ssSampleCorrelation val1 val2 with
  | .ok v => v
  | .error _ => if col1 = col2 then JsNum.num 1 else JsNum.num 0

/-- Embedding of calculatePearson (dataProcessor.ts).  datasetName is
fileName.split('.')[0], the prefix before the first dot. -/
noncomputable def calculatePearson (data : List DataRow) (selectedCols : List String)
    (fileName : String) : PearsonResult :=
  { matrix := selectedCols.map (fun c1 =>
      (c1, selectedCols.map (fun c2 => (c2, pearsonEntry data c1 c2)))),
    columns := selectedCols,
    datasetName := fileName.takeWhile (fun c => c ≠ '.') }

/-- Lookup of an entry of the Pearson matrix (matrix[a][b]). -/
noncomputable def matLookup (pr : PearsonResult) (a b : String) : Option JsNum :=
  match pr.matrix.lookup a with
  | some row => row.lookup b
  | none => none

/-- Effectful map over a list in the Except monad, evaluating front to
back and propagating the first thrown error, as the source's array maps
do when a callback throws. -/
def mapE {α β : Type} (f : α → Except String β) : List α → Except String (List β)
  | [] => .ok []
  | a :: t => do
      let b ← f a
      let bs ← mapE f t
      pure (b :: bs)

/-- Euclidean distance (dataProcessor.ts euclideanDistance):
sqrt of the sum of squared componentwise differences. -/
noncomputable def euclideanDistance (a b : List ℝ) : ℝ :=
  Real.sqrt ((List.zipWith (fun x y => (x - y) ^ 2) a b).sum)

/-- Ascending sort of real values, modelling dists.sort((a, b) => a - b). -/
noncomputable def sortR (l : List ℝ) : List ℝ :=
  List.insertionSort (fun a b : ℝ => a ≤ b) l

/-- Embedding of detectOutliers (dataProcessor.ts).  The PCA fit+project
step (external ml-pca library) is the abstract parameter pca, applied to
the matrix it was fitted on.  dists.slice(1, 6) is drop 1 take 5 of the
sorted distance list; ss.mean of it throws if it is empty. -/
noncomputable def detectOutliers (pca : List (List ℝ) → List (List ℝ))
    (matrix : List (List ℝ)) : Except String (List ℤ) :=
  if matrix.length < 5 then .ok [] else do
    let scores ← mapE (fun p1 => do
        let dists := (pca matrix).map (fun p2 => euclideanDistance p1 p2)
        ssMean (((sortR dists).drop 1).take 5)) (pca matrix)
    let meanScore ← ssMean scores
    let stdScore ← ssStandardDeviation scores
    let threshold := meanScore + 2 * stdScore
    pure ((scores.enum.map (fun p => if threshold < p.2 then (p.1 : ℤ) else -1)).filter
      (fun x => x ≠ -1))

/-- Score of point i per the specification's wording (section 4.4): the
arithmetic mean of the 5 smallest distances to the OTHER points (or fewer
when the population is smaller). -/
noncomputable def knnScore (pts : List (List ℝ)) (i : ℕ) : ℝ :=
  let others := (pts.eraseIdx i).map (fun q => euclideanDistance (pts.getD i []) q)
  let nearest := (sortR others).take 5
  nearest.sum / (nearest.length : ℝ)

/-- Outlier detector as worded by the specification (section 4.4): skip
populations below 5 rows; flag exactly the points whose score strictly
exceeds mean(scores) + 2 * population standard deviation(scores). -/
noncomputable def specOutlierDetector (pca : List (List ℝ) → List (List ℝ))
    (matrix : List (List ℝ)) : List ℤ :=
  if matrix.length < 5 then [] else
    let pts := pca matrix
    let scores := (List.range pts.length).map (knnScore pts)
    let threshold := meanVal scores + 2 * Real.sqrt (popVarV scores)
    (scores.enum.filter (fun p => decide (threshold < p.2))).map (fun p => (p.1 : ℤ))

/-- One entry of the silhouetteSamples list (types.ts). -/
structure SilhouetteSample where
  cluster : ℕ
  value : ℝ

/-- Per-point silhouette (body of the map in calculateSilhouette).
bi starts as Infinity, modelled as none; the final isNaN(si) guard maps
the undefined cases ((Infinity - ai) / Infinity and 0/0) to 0. -/
noncomputable def silhouettePoint (matrix : List (List ℝ)) (clusters : List ℕ)
    (i : ℕ) (point : List ℝ) : SilhouetteSample :=
  let clusterI := clusters.getD i 0
  let sameClusterIndices :=
    (clusters.enum.filter (fun p => p.2 == clusterI && p.1 != i)).map (fun p => p.1)
  let ai : ℝ :=
    if sameClusterIndices.length = 0 then 0
    else (sameClusterIndices.map (fun idx => euclideanDistance point (matrix.getD idx []))).sum /
      (sameClusterIndices.length : ℝ)
  let otherClusters := clusters.dedup.filter (fun c => c != clusterI)
  let bi : Option ℝ := otherClusters.foldl (fun acc otherC =>
      let otherIdx := (clusters.enum.filter (fun p => p.2 == otherC)).map (fun p => p.1)
      let avgDist :=
        (otherIdx.map (fun idx => euclideanDistance point (matrix.getD idx []))).sum /
          (otherIdx.length : ℝ)
      match acc with
      | none => some avgDist
      | some b => some (min b avgDist)) none
  let si : ℝ :=
    match bi with
    | none => 0
    | some b => if max ai b = 0 then 0 else (b - ai) / max ai b
  { cluster := clusterI, value := si }

/-- Embedding of calculateSilhouette (dataProcessor.ts): mean silhouette
and per-point samples; (0, []) for matrices with at most one row. -/
noncomputable def calculateSilhouette (matrix : List (List ℝ)) (clusters : List ℕ) :
    ℝ × List SilhouetteSample :=
  if matrix.length ≤ 1 then (0, [])
  else
    let samples := matrix.enum.map (fun p => silhouettePoint matrix clusters p.1 p.2)
    (((samples.map (fun s => s.value)).sum) / (matrix.length : ℝ), samples)

/-- Result of one run of the external ml-kmeans library. -/
structure KmeansResult where
  clusters : List ℕ
  centroids : List (List ℝ)
  inertia : ℝ

/-- Abstract k-means routine (the external ml-kmeans library with
k-means++ seeding); theorems quantify over it. -/
def KmeansFn : Type := List (List ℝ) → ℕ → KmeansResult

/-- Abstract PCA fit+project routine (the external ml-pca library, fitted
on and applied to the same matrix). -/
def PcaFn : Type := List (List ℝ) → List (List ℝ)

/-- One entry of the K-sweep metrics list (types.ts KMetric). -/
structure KMetric where
  k : ℕ
  wcss : ℝ
  silhouette : ℝ

/-- Mean silhouette of one trial clustering at k (the value recorded and
compared by getSuggestedK). -/
noncomputable def silAt (kmeansFn : KmeansFn) (matrix : List (List ℝ)) (k : ℕ) : ℝ :=
  (calculateSilhouette matrix (kmeansFn matrix k).clusters).1

/-- The metric recorded by getSuggestedK for candidate k. -/
noncomputable def sweepMetric (kmeansFn : KmeansFn) (matrix : List (List ℝ)) (k : ℕ) :
    KMetric :=
  { k := k, wcss := (kmeansFn matrix k).inertia, silhouette := silAt kmeansFn matrix k }

/-- Best-so-far update of one sweep iteration: maxSilhouette starts as
-Infinity (none); the update fires on sil > maxSilhouette, so ties keep
the first-seen k. -/
noncomputable def bestStep (kmeansFn : KmeansFn) (matrix : List (List ℝ))
    (st : Option ℝ × ℕ) (testK : ℕ) : Option ℝ × ℕ :=
  match st.1 with
  | none => (some (silAt kmeansFn matrix testK), testK)
  | some m =>
      if m < silAt kmeansFn matrix testK then (some (silAt kmeansFn matrix testK), testK)
      else st

/-- One iteration of the getSuggestedK loop: push the metric, update the
best-so-far pair. -/
noncomputable def sweepStep (kmeansFn : KmeansFn) (matrix : List (List ℝ))
    (st : List KMetric × Option ℝ × ℕ) (testK : ℕ) : List KMetric × Option ℝ × ℕ :=
  (st.1 ++ [sweepMetric kmeansFn matrix testK], bestStep kmeansFn matrix st.2 testK)

/-- Candidate k values of the sweep: testK = 2, ..., min(10, n - 1). -/
def kCandidates (n : ℕ) : List ℕ := List.range' 2 (min 10 (n - 1) + 1 - 2)

/-- Embedding of getSuggestedK (dataProcessor.ts): sweep candidate k
values, record (k, inertia, silhouette), return the metrics and the k
maximizing the mean silhouette (first seen wins; bestK starts at 2). -/
noncomputable def getSuggestedK (kmeansFn : KmeansFn) (matrix : List (List ℝ)) :
    List KMetric × ℕ :=
  let r := (kCandidates matrix.length).foldl (sweepStep kmeansFn matrix) ([], none, 2)
  (r.1, r.2.2)

/-- Column i of a matrix (fullMatrix.map(row => row[i])). -/
def columnOf (m : List (List ℝ)) (i : ℕ) : List ℝ := m.map (fun row => row.getD i 0)

/-- JavaScript s || 1 for a nonnegative standard deviation: 0 is falsy and
is replaced by 1. -/
noncomputable def jsOr1 (s : ℝ) : ℝ := if s = 0 then 1 else s

/-- Population standard deviation as simple-statistics standardDeviation
computes it on nonempty input: 0 for a single point, otherwise the square
root of the n-divisor variance. -/
noncomputable def popStdModel (l : List ℝ) : ℝ :=
  if l.length = 1 then 0 else Real.sqrt (popVarV l)

/-- Standardizer fit (performClustering step 1): per-column mean, and
per-column ss.standardDeviation || 1. -/
noncomputable def standardizerFit (m : List (List ℝ)) (numCols : ℕ) :
    Except String (List ℝ × List ℝ) := do
  let fullMeans ← mapE (fun i => ssMean (columnOf m i)) (List.range numCols)
  let fullStds ← mapE (fun i => do
      let s ← ssStandardDeviation (columnOf m i)
      pure (jsOr1 s)) (List.range numCols)
  pure (fullMeans, fullStds)

/-- Standardizer apply (performClustering step 1): elementwise
(val - fullMeans[i]) / fullStds[i]. -/
noncomputable def standardizerApply (m : List (List ℝ)) (means stds : List ℝ) :
    List (List ℝ) :=
  m.map (fun row => row.enum.map (fun p => (p.2 - means.getD p.1 0) / stds.getD p.1 1))

/-- Scaled per-cluster statistics entry (types.ts scaledStats values). -/
structure ScaledStat where
  mean : ℝ
  variance : ℝ

/-- Rows assigned to cluster i (the filter((_, idx) => clusters[idx] === i)
steps of performClustering step 7).  JavaScript's clusters[idx] === i is
false when idx is out of range, modelled by the default value k which
never equals a loop index. -/
def clusterMembers {α : Type} (l : List α) (clusters : List ℕ) (k i : ℕ) : List α :=
  (l.enum.filter (fun p => clusters.getD p.1 k == i)).map (fun p => p.2)

/-- One column's statistics cell of performClustering step 7: the raw-scale
mean guard (length > 0, else 0) and the scaled-scale mean / ss.variance
guards (length > 0 for the mean, length > 1 for the variance). -/
noncomputable def statsCellE (raw : List DataRow) (colValuesScaled : List ℝ)
    (col : String) : Except String ((String × ℝ) × (String × ScaledStat)) :=
  (if raw.length > 0 then ssMean (raw.map (fun d => cellNum d col))
   else pure 0) >>= fun rawMean =>
  (if colValuesScaled.length > 0 then
      ssMean colValuesScaled >>= fun mn =>
      (if colValuesScaled.length > 1 then ssVariance colValuesScaled
       else pure 0) >>= fun vr =>
      pure (ScaledStat.mk mn vr)
   else pure (ScaledStat.mk 0 0)) >>= fun sstat =>
  pure ((col, rawMean), (col, sstat))

/-- Embedding of performClustering step 7 (cluster statistics): for each
cluster id i in [0, bestK), the raw-scale means and the scaled-scale mean
and ss.variance of the member rows per selected column. -/
noncomputable def clusterStatsAgg (finalData : List DataRow)
    (finalMatrix : List (List ℝ)) (clusters : List ℕ) (bestK : ℕ)
    (selectedCols : List String) :
    Except String (List (ℕ × List (String × ℝ)) × List (ℕ × List (String × ScaledStat))) := do
  let pairs ← mapE (fun i => do
    let colStats ← mapE (fun q =>
      statsCellE (clusterMembers finalData clusters bestK i)
        ((clusterMembers finalMatrix clusters bestK i).map (fun row => row.getD q.1 0))
        q.2) selectedCols.enum
    pure ((i, colStats.map (fun s => s.1)), (i, colStats.map (fun s => s.2)))) (List.range bestK)
  pure (pairs.map (fun s => s.1), pairs.map (fun s => s.2))

/-- One point of the full-population projection view (types.ts pcaData). -/
structure PcaPoint where
  x : ℝ
  y : ℝ
  cluster : ℤ
  isOutlier : Bool
  index : ℕ

/-- Embedding of the pcaData construction (performClustering step 6): for
each projected point, cluster is ans.clusters[mappingIndices.indexOf(i)]
when i is mapped and -1 otherwise, and isOutlier marks membership in the
outlier index list. -/
noncomputable def pcaDataOf (fullProjected : List (List ℝ)) (mappingIndices : List ℕ)
    (clusters : List ℕ) (outlierIndices : List ℤ) : List PcaPoint :=
  fullProjected.enum.map (fun p =>
    let i := p.1
    let cluster : ℤ :=
      if i ∈ mappingIndices then ((clusters.getD (mappingIndices.indexOf i) 0 : ℕ) : ℤ)
      else -1
    { x := p.2.getD 0 0, y := p.2.getD 1 0, cluster := cluster,
      isOutlier := outlierIndices.contains (i : ℤ), index := i })

/-- Indices kept for clustering (performClustering step 3). -/
def mappingIndicesOf (n : ℕ) (excludeOutliers : Bool) (outlierIndices : List ℤ) :
    List ℕ :=
  if excludeOutliers then
    (List.range n).filter (fun i => !(outlierIndices.contains (i : ℤ)))
  else List.range n

/-- Positional filter dropping the rows whose index is in the outlier
list (performClustering step 3). -/
def filterOutliers {α : Type} (l : List α) (outlierIndices : List ℤ) : List α :=
  (l.enum.filter (fun p => !(outlierIndices.contains (p.1 : ℤ)))).map (fun p => p.2)

/-- Result record of performClustering (types.ts ClusterResult; the
advisory log string is not modelled). -/
structure ClusterResult where
  k : ℕ
  clusters : List ℕ
  centroids : List (List ℝ)
  pcaData : List PcaPoint
  outlierIndices : List ℤ
  stats : List (ℕ × List (String × ℝ))
  scaledStats : List (ℕ × List (String × ScaledStat))
  metrics : List KMetric
  silhouetteSamples : List SilhouetteSample
  avgSilhouette : ℝ
  selectedCols : List String
  excludeOutliers : Bool

/-- Embedding of performClustering (dataProcessor.ts).  Note the source
signature: (data, selectedCols, excludeOutliers = false) - there is no k
parameter; k is always chosen by getSuggestedK. -/
noncomputable def performClustering (data : List DataRow) (selectedCols : List String)
    (excludeOutliers : Bool) (pcaFn : PcaFn) (kmeansFn : KmeansFn) :
    Except String ClusterResult := do
  let fullMatrix := data.map (fun d => selectedCols.map (fun col => cellNum d col))
  let fit ← standardizerFit fullMatrix selectedCols.length
  let fullScaledMatrix := standardizerApply fullMatrix fit.1 fit.2
  let outlierIndices ← detectOutliers pcaFn fullScaledMatrix
  let mappingIndices := mappingIndicesOf data.length excludeOutliers outlierIndices
  let finalMatrix :=
    if excludeOutliers then filterOutliers fullScaledMatrix outlierIndices
    else fullScaledMatrix
  let finalData :=
    if excludeOutliers then filterOutliers data outlierIndices else data
  let sk := getSuggestedK kmeansFn finalMatrix
  let ans := kmeansFn finalMatrix sk.2
  let sil := calculateSilhouette finalMatrix ans.clusters
  let fullProjected := pcaFn fullScaledMatrix
  let pcaData := pcaDataOf fullProjected mappingIndices ans.clusters outlierIndices
  let statsPair ← clusterStatsAgg finalData finalMatrix ans.clusters sk.2 selectedCols
  pure { k := sk.2, clusters := ans.clusters, centroids := ans.centroids,
         pcaData := pcaData, outlierIndices := outlierIndices,
         stats := statsPair.1, scaledStats := statsPair.2, metrics := sk.1,
         silhouetteSamples := sil.2, avgSilhouette := sil.1,
         selectedCols := selectedCols, excludeOutliers := excludeOutliers }

/-- Embedding of the App.tsx switchClusterMode call site.  The source calls
performClustering(data, selectedCols, k, mode) although performClustering
declares only (data, selectedCols, excludeOutliers): at runtime the number
k is bound to excludeOutliers (JavaScript truthiness: nonzero is true) and
the 4th argument mode is dropped. -/
noncomputable def switchClusterMode (data : List DataRow) (selectedCols : List String)
    (pcaFn : PcaFn) (kmeansFn : KmeansFn) (k : ℕ) (mode : Bool) :
    Except String ClusterResult :=
  performClustering data selectedCols (decide (k ≠ 0)) pcaFn kmeansFn

/-- Chosen k of a clustering outcome; 0 for the error case. -/
def exKOf (e : Except String ClusterResult) : ℕ :=
  match e with
  | .ok r => r.k
  | .error _ => 0

/-- excludeOutliers flag of a clustering outcome; false for the error
case. -/
def exFlagOf (e : Except String ClusterResult) : Bool :=
  match e with
  | .ok r => r.excludeOutliers
  | .error _ => false

/-- pcaData of a clustering outcome; empty for the error case. -/
def exPcaOf (e : Except String ClusterResult) : List PcaPoint :=
  match e with
  | .ok r => r.pcaData
  | .error _ => []

/-- outlierIndices of a clustering outcome; empty for the error case. -/
def exOutOf (e : Except String ClusterResult) : List ℤ :=
  match e with
  | .ok r => r.outlierIndices
  | .error _ => []

/-- Success flag of a clustering outcome: true exactly when
performClustering returned a result rather than throwing. -/
def exIsOk (e : Except String ClusterResult) : Bool :=
  match e with
  | .ok _ => true
  | .error _ => false

/-- Concrete PCA stand-in for witnesses: every row projects to the
origin. -/
noncomputable def constPca : PcaFn := fun m => m.map (fun _ => [0, 0])

/-- Concrete k-means stand-in for witnesses: row i goes to cluster
i mod k. -/
def constKmeans : KmeansFn := fun m k =>
  { clusters := (List.range m.length).map (fun i => i % k), centroids := [], inertia := 0 }

/-- Concrete data row for witnesses: column "a" holds v, all other columns
are absent. -/
noncomputable def wRow (v : ℝ) : DataRow := fun c => if c = "a" then some v else none

/-- Concrete two-column data row for witnesses: column "a" holds va,
column "b" holds vb. -/
noncomputable def wRow2 (va vb : ℝ) : DataRow :=
  fun c => if c = "a" then some va else if c = "b" then some vb else none

/-! ## Helper lemmas -/

theorem sq_dev_sum_zero {c : ℝ} :
    ∀ {l : List ℝ}, ((l.map (fun x => (x - c) ^ 2)).sum = 0) → ∀ x ∈ l, x = c := by
  intro l
  induction l with
  | nil => intro _ x hx; cases hx
  | cons a t ih =>
      intro h x hx
      have hsum : (a - c) ^ 2 + ((t.map (fun x => (x - c) ^ 2)).sum) = 0 := by
        simpa using h
      have h1 : 0 ≤ (a - c) ^ 2 := sq_nonneg _
      have h2 : 0 ≤ (t.map (fun x => (x - c) ^ 2)).sum := by
        apply List.sum_nonneg
        intro z hz
        rcases List.mem_map.1 hz with ⟨w, _, rfl⟩
        exact sq_nonneg _
      have hz1 : (a - c) ^ 2 = 0 := by nlinarith
      have hz2 : (t.map (fun x => (x - c) ^ 2)).sum = 0 := by nlinarith
      have hac : a - c = 0 := sq_eq_zero_iff.1 hz1
      rcases List.mem_cons.1 hx with hx | hx
      · rw [hx]
        exact sub_eq_zero.1 hac
      · exact ih hz2 x hx

theorem sampleVar_zero_const {l : List ℝ} (h2 : 2 ≤ l.length) (h : sampleVarV l = 0) :
    ∀ x ∈ l, x = meanVal l := by
  have hden : ((l.length : ℝ) - 1) ≠ 0 := by
    have : (2 : ℝ) ≤ (l.length : ℝ) := by exact_mod_cast h2
    nlinarith
  have hnum : ((l.map (fun x => (x - meanVal l) ^ 2)).sum) = 0 := by
    rcases div_eq_zero_iff.1 h with hn | hd
    · exact hn
    · exact absurd hd hden
  exact sq_dev_sum_zero hnum

theorem jsDiv_nan_left (z : JsNum) : jsDiv JsNum.nan z = JsNum.nan := by
  cases z <;> rfl

theorem jsDiv_zero_zero : jsDiv (JsNum.num 0) (JsNum.num 0) = JsNum.nan := by
  simp [jsDiv]

theorem zipWith_left_dev_zero {c : ℝ} (h : ℝ → ℝ) :
    ∀ (x y : List ℝ), (∀ a ∈ x, a = c) →
      (List.zipWith (fun a b => (a - c) * h b) x y).sum = 0 := by
  intro x
  induction x with
  | nil => intro y _; simp
  | cons a t ih =>
      intro y hx
      cases y with
      | nil => simp
      | cons b s =>
          have ha : a = c := hx a (List.mem_cons_self a t)
          have ht : ∀ z ∈ t, z = c := fun z hz => hx z (List.mem_cons_of_mem a hz)
          simp [List.zipWith, ha, ih s ht]

theorem jsDiv_chain_comm (c x y : ℝ) (hx : 0 ≤ x) (hy : 0 ≤ y) :
    jsDiv (jsDiv (JsNum.num c) (JsNum.num x)) (JsNum.num y) =
      jsDiv (jsDiv (JsNum.num c) (JsNum.num y)) (JsNum.num x) := by
  rcases eq_or_ne x 0 with hx0 | hx0 <;> rcases eq_or_ne y 0 with hy0 | hy0
  · subst hx0; subst hy0; rfl
  · subst hx0
    have hypos : 0 < y := lt_of_le_of_ne hy (Ne.symm hy0)
    rcases lt_trichotomy c 0 with hc | hc | hc
    · have hcy : c / y < 0 := div_neg_of_neg_of_pos hc hypos
      simp [jsDiv, hy0, hc.ne, hcy.ne, not_lt_of_lt hc, not_lt_of_lt hcy, hy]
    · subst hc
      simp [jsDiv, hy0, hy]
    · have hcy : 0 < c / y := div_pos hc hypos
      simp [jsDiv, hy0, hc.ne', hcy.ne', hc, hcy, hy]
  · subst hy0
    have hxpos : 0 < x := lt_of_le_of_ne hx (Ne.symm hx0)
    rcases lt_trichotomy c 0 with hc | hc | hc
    · have hcx : c / x < 0 := div_neg_of_neg_of_pos hc hxpos
      simp [jsDiv, hx0, hc.ne, hcx.ne, not_lt_of_lt hc, not_lt_of_lt hcx, hx]
    · subst hc
      simp [jsDiv, hx0, hx]
    · have hcx : 0 < c / x := div_pos hc hxpos
      simp [jsDiv, hx0, hc.ne', hcx.ne', hc, hcx, hx]
  · simp only [jsDiv, if_neg hx0, if_neg hy0]
    rw [div_div, div_div, mul_comm]

theorem cov_ok_facts {x y : List ℝ} {c : ℝ} (h : ssSampleCovariance x y = .ok c) :
    x.length = y.length ∧ 2 ≤ x.length := by
  by_cases hl : x.length = y.length
  · by_cases h2 : x.length < 2
    · rw [ssSampleCovariance, if_neg (by simpa using hl), if_pos h2] at h
      cases h
    · exact ⟨hl, le_of_not_lt h2⟩
  · rw [ssSampleCovariance, if_pos (by simpa using hl)] at h
    cases h

theorem cov_comm (x y : List ℝ) : ssSampleCovariance x y = ssSampleCovariance y x := by
  unfold ssSampleCovariance
  by_cases hl : x.length = y.length
  · have hzip : List.zipWith (fun a b => (a - meanVal x) * (b - meanVal y)) x y =
        List.zipWith (fun a b => (a - meanVal y) * (b - meanVal x)) y x := by
      rw [List.zipWith_comm]
      have hfun : (fun b a => (a - meanVal x) * (b - meanVal y)) =
          (fun a b => (a - meanVal y) * (b - meanVal x)) := by
        funext p q
        exact mul_comm _ _
      rw [hfun]
    simp [hl, hzip]
  · have hl2 : ¬ (y.length = x.length) := fun h => hl h.symm
    simp [hl, hl2]

theorem exBind_ok {ε α β : Type} (a : α) (f : α → Except ε β) :
    (Except.ok a >>= f) = f a := rfl

theorem exBind_err {ε α β : Type} (e : ε) (f : α → Except ε β) :
    ((Except.error e : Except ε α) >>= f) = Except.error e := rfl

theorem sstd_ok {l : List ℝ} (h2 : 2 ≤ l.length) :
    ssSampleStandardDeviation l = .ok (Real.sqrt (sampleVarV l)) := by
  rw [ssSampleStandardDeviation, ssSampleVariance, if_neg (not_lt.2 h2)]
  rfl

theorem pearsonEntry_comm (data : List DataRow) (a b : String) :
    pearsonEntry data a b = pearsonEntry data b a := by
  unfold pearsonEntry ssSampleCorrelation
  rcases hcov : ssSampleCovariance (data.map (fun d => cellNum d a))
      (data.map (fun d => cellNum d b)) with e | c
  · have hswap : ssSampleCovariance (data.map (fun d => cellNum d b))
        (data.map (fun d => cellNum d a)) = .error e := by
      rw [← cov_comm]; exact hcov
    simp only [hcov, hswap, exBind_err]
    by_cases hab : a = b
    · simp [hab]
    · have hba : ¬ b = a := fun h => hab h.symm
      simp [hab, hba]
  · have hswap : ssSampleCovariance (data.map (fun d => cellNum d b))
        (data.map (fun d => cellNum d a)) = .ok c := by
      rw [← cov_comm]; exact hcov
    have hlen := cov_ok_facts hcov
    have h2a : 2 ≤ (data.map (fun d => cellNum d a)).length := hlen.2
    have h2b : 2 ≤ (data.map (fun d => cellNum d b)).length := by
      rw [← hlen.1]; exact hlen.2
    simp only [hcov, hswap, exBind_ok, sstd_ok h2a, sstd_ok h2b]
    have hcomm := jsDiv_chain_comm c
      (Real.sqrt (sampleVarV (data.map (fun d => cellNum d a))))
      (Real.sqrt (sampleVarV (data.map (fun d => cellNum d b))))
      (Real.sqrt_nonneg _) (Real.sqrt_nonneg _)
    simpa using hcomm

theorem pearsonEntry_diag_small (data : List DataRow) (a b : String)
    (h : data.length < 2) : pearsonEntry data a b =
      (if a = b then JsNum.num 1 else JsNum.num 0) := by
  unfold pearsonEntry ssSampleCorrelation
  have hcov : ssSampleCovariance (data.map (fun d => cellNum d a))
      (data.map (fun d => cellNum d b)) =
      .error "sampleCovariance requires at least two data points in each sample" := by
    rw [ssSampleCovariance, if_neg (by simp), if_pos (by simpa using h)]
  simp [hcov, exBind_err]

theorem cov_self (x : List ℝ) (h2 : 2 ≤ x.length) :
    ssSampleCovariance x x = .ok (sampleVarV x) := by
  rw [ssSampleCovariance, if_neg (by simp), if_neg (not_lt.2 h2)]
  have hmap : List.zipWith (fun a b => (a - meanVal x) * (b - meanVal x)) x x =
      x.map (fun v => (v - meanVal x) ^ 2) := by
    rw [List.zipWith_same]
    apply List.map_congr_left
    intro v _
    rw [pow_two]
  rw [hmap, sampleVarV]

theorem sampleVarV_nonneg {l : List ℝ} (h2 : 2 ≤ l.length) : 0 ≤ sampleVarV l := by
  apply div_nonneg
  · apply List.sum_nonneg
    intro z hz
    rcases List.mem_map.1 hz with ⟨w, _, rfl⟩
    exact sq_nonneg _
  · have : (2 : ℝ) ≤ (l.length : ℝ) := by exact_mod_cast h2
    nlinarith

theorem pearsonEntry_diag_posvar (data : List DataRow) (a : String)
    (h2 : 2 ≤ data.length)
    (hV : sampleVarV (data.map (fun d => cellNum d a)) ≠ 0) :
    pearsonEntry data a a = JsNum.num 1 := by
  unfold pearsonEntry ssSampleCorrelation
  have h2x : 2 ≤ (data.map (fun d => cellNum d a)).length := by simpa using h2
  have hVpos : 0 < sampleVarV (data.map (fun d => cellNum d a)) :=
    lt_of_le_of_ne (sampleVarV_nonneg h2x) (Ne.symm hV)
  have hs : Real.sqrt (sampleVarV (data.map (fun d => cellNum d a))) ≠ 0 :=
    ne_of_gt (Real.sqrt_pos.2 hVpos)
  simp only [cov_self _ h2x, sstd_ok h2x, exBind_ok]
  rw [jsDiv]
  rw [if_neg hs]
  rw [jsDiv]
  rw [if_neg hs]
  rw [div_div, Real.mul_self_sqrt (le_of_lt hVpos), div_self hV]
  rfl

theorem pearsonEntry_nan_of_zero_var (data : List DataRow) (a b : String)
    (h2 : 2 ≤ data.length)
    (hV : sampleVarV (data.map (fun d => cellNum d a)) = 0) :
    pearsonEntry data a b = JsNum.nan := by
  unfold pearsonEntry ssSampleCorrelation
  have h2x : 2 ≤ (data.map (fun d => cellNum d a)).length := by simpa using h2
  have h2y : 2 ≤ (data.map (fun d => cellNum d b)).length := by simpa using h2
  have hconst := sampleVar_zero_const h2x hV
  have hcov : ssSampleCovariance (data.map (fun d => cellNum d a))
      (data.map (fun d => cellNum d b)) = .ok 0 := by
    rw [ssSampleCovariance, if_neg (by simp), if_neg (not_lt.2 h2x)]
    rw [zipWith_left_dev_zero (fun v => v - meanVal (data.map (fun d => cellNum d b))) _ _
      (fun z hz => hconst z hz), zero_div]
  have hstd : ssSampleStandardDeviation (data.map (fun d => cellNum d a)) = .ok 0 := by
    rw [sstd_ok h2x, hV, Real.sqrt_zero]
  simp only [hcov, hstd, sstd_ok h2y, exBind_ok]
  rw [jsDiv_zero_zero, jsDiv_nan_left]
  rfl

theorem lookup_map_self {β : Type} (g : String → β) :
    ∀ (cols : List String) (a : String), a ∈ cols →
      (cols.map (fun c => (c, g c))).lookup a = some (g a) := by
  intro cols
  induction cols with
  | nil => intro a ha; cases ha
  | cons c t ih =>
      intro a ha
      by_cases hac : a = c
      · subst hac
        simp [List.lookup]
      · have hat : a ∈ t := by
          rcases List.mem_cons.1 ha with h | h
          · exact absurd h hac
          · exact h
        have hbeq : (a == c) = false := by
          simp [hac]
        simp [List.lookup, hbeq, ih a hat]

theorem matLookup_pearson (data : List DataRow) (cols : List String) (fn : String)
    (a b : String) (ha : a ∈ cols) (hb : b ∈ cols) :
    matLookup (calculatePearson data cols fn) a b = some (pearsonEntry data a b) := by
  unfold matLookup calculatePearson
  simp only [lookup_map_self (fun c1 => cols.map (fun c2 => (c2, pearsonEntry data c1 c2)))
    cols a ha]
  exact lookup_map_self (fun c2 => pearsonEntry data a c2) cols b hb

/-! ## Claim C3 -/

/-- Claim C3 counterexample: on two rows whose selected column "a" is the
constant 2, calculatePearson reports the correlation of "a" with "b" as
NaN, not as the claimed explicit fallback 0. -/
theorem c3_counterexample :
    matLookup (calculatePearson [wRow2 2 0, wRow2 2 1] ["a", "b"] "f") "a" "b" =
      some JsNum.nan ∧ JsNum.nan ≠ JsNum.num 0 := by
  have hmap : ([wRow2 2 0, wRow2 2 1] : List DataRow).map (fun d => cellNum d "a") =
      [2, 2] := by
    simp [cellNum, wRow2]
  have hv : sampleVarV (([wRow2 2 0, wRow2 2 1] : List DataRow).map
      (fun d => cellNum d "a")) = 0 := by
    rw [hmap]
    simp [sampleVarV, meanVal]
  refine ⟨?_, fun h => JsNum.noConfusion h⟩
  rw [matLookup_pearson _ _ _ _ _ (by simp) (by simp),
    pearsonEntry_nan_of_zero_var _ _ _ (by simp) hv]

/-- Claim C3 (amended): for an input with at least 2 rows containing a
zero-sample-variance (constant) selected column, calculatePearson reports
every entry involving that column - its correlation with any other column
and its own diagonal entry alike - as NaN (an IEEE 0/0), not as the 1 / 0
fallback; the try/catch fallback only fires when the library throws, i.e.
for fewer than 2 rows. -/
theorem c3_amended (data : List DataRow) (cols : List String) (fn : String)
    (a b : String) (ha : a ∈ cols) (hb : b ∈ cols) (h2 : 2 ≤ data.length)
    (hV : sampleVarV (data.map (fun d => cellNum d a)) = 0) :
    matLookup (calculatePearson data cols fn) a b = some JsNum.nan := by
  rw [matLookup_pearson data cols fn a b ha hb,
    pearsonEntry_nan_of_zero_var data a b h2 hV]

/-- Claim C3 witness: the amended theorem applied to a concrete input. -/
theorem c3_witness :
    (2 ≤ ([wRow2 4 0, wRow2 4 9] : List DataRow).length) ∧
    sampleVarV (([wRow2 4 0, wRow2 4 9] : List DataRow).map (fun d => cellNum d "a")) = 0 ∧
    matLookup (calculatePearson [wRow2 4 0, wRow2 4 9] ["a", "b"] "f") "a" "b" =
      some JsNum.nan := by
  have hmap : ([wRow2 4 0, wRow2 4 9] : List DataRow).map (fun d => cellNum d "a") =
      [4, 4] := by
    simp [cellNum, wRow2]
  have hv : sampleVarV (([wRow2 4 0, wRow2 4 9] : List DataRow).map
      (fun d => cellNum d "a")) = 0 := by
    rw [hmap]
    simp [sampleVarV, meanVal]
  exact ⟨by simp, hv, c3_amended _ _ _ _ _ (by simp) (by simp) (by simp) hv⟩

/-! ## Claim C6 -/

/-- Claim C6 counterexample: with 2 rows and a constant selected column,
the diagonal entry of the correlation matrix is NaN, not the claimed
exact 1.0 (the input has at least 1 row). -/
theorem c6_counterexample :
    matLookup (calculatePearson [wRow 1, wRow 1] ["a"] "g") "a" "a" =
      some JsNum.nan ∧ JsNum.nan ≠ JsNum.num 1 := by
  have hmap : ([wRow 1, wRow 1] : List DataRow).map (fun d => cellNum d "a") =
      [1, 1] := by
    simp [cellNum, wRow]
  have hv : sampleVarV (([wRow 1, wRow 1] : List DataRow).map
      (fun d => cellNum d "a")) = 0 := by
    rw [hmap]
    simp [sampleVarV, meanVal]
  refine ⟨?_, fun h => JsNum.noConfusion h⟩
  rw [matLookup_pearson _ _ _ _ _ (by simp) (by simp),
    pearsonEntry_nan_of_zero_var _ _ _ (by simp) hv]

/-- Claim C6 (amended): the correlation matrix is symmetric for every
input (matrix[a][b] = matrix[b][a] for all selected columns a, b), and the
diagonal entry of a selected column is exactly 1.0 when the input has
fewer than 2 rows (try/catch fallback) or when the column's sample
variance is nonzero; a zero-variance column's diagonal is NaN instead. -/
theorem c6_amended (data : List DataRow) (cols : List String) (fn : String)
    (a b : String) (ha : a ∈ cols) (hb : b ∈ cols) :
    matLookup (calculatePearson data cols fn) a b =
      matLookup (calculatePearson data cols fn) b a ∧
    (data.length < 2 → matLookup (calculatePearson data cols fn) a a =
      some (JsNum.num 1)) ∧
    (2 ≤ data.length → sampleVarV (data.map (fun d => cellNum d a)) ≠ 0 →
      matLookup (calculatePearson data cols fn) a a = some (JsNum.num 1)) := by
  refine ⟨?_, ?_, ?_⟩
  · rw [matLookup_pearson data cols fn a b ha hb,
      matLookup_pearson data cols fn b a hb ha, pearsonEntry_comm]
  · intro h
    rw [matLookup_pearson data cols fn a a ha ha, pearsonEntry_diag_small data a a h]
    simp
  · intro h2 hV
    rw [matLookup_pearson data cols fn a a ha ha,
      pearsonEntry_diag_posvar data a h2 hV]

/-- Claim C6 witness: the amended theorem applied to a concrete input. -/
theorem c6_witness :
    ("a" ∈ (["a", "b"] : List String)) ∧ ("b" ∈ (["a", "b"] : List String)) ∧
    matLookup (calculatePearson [wRow2 1 5, wRow2 2 6] ["a", "b"] "h") "a" "b" =
      matLookup (calculatePearson [wRow2 1 5, wRow2 2 6] ["a", "b"] "h") "b" "a" := by
  have h := c6_amended [wRow2 1 5, wRow2 2 6] ["a", "b"] "h" "a" "b" (by simp) (by simp)
  exact ⟨by simp, by simp, h.1⟩

/-! ## Claim C10 -/

/-- Claim C10 (confirmed): calculatePearson is total: for every data list
(including empty and single-row lists) and every pair of selected columns,
the returned matrix holds an entry for that ordered pair, and whenever the
underlying computation throws (fewer than 2 rows) the entry is the
1-on-diagonal / 0-off-diagonal fallback. -/
theorem c10_total (data : List DataRow) (cols : List String) (fn : String)
    (a b : String) (ha : a ∈ cols) (hb : b ∈ cols) :
    ∃ v, matLookup (calculatePearson data cols fn) a b = some v ∧
      (data.length < 2 → v = (if a = b then JsNum.num 1 else JsNum.num 0)) := by
  refine ⟨pearsonEntry data a b, matLookup_pearson data cols fn a b ha hb, ?_⟩
  intro h
  exact pearsonEntry_diag_small data a b h

/-- Claim C10 witness: the theorem applied to the empty row list. -/
theorem c10_witness :
    ("x" ∈ (["x", "y"] : List String)) ∧ ("y" ∈ (["x", "y"] : List String)) ∧
    ∃ v, matLookup (calculatePearson ([] : List DataRow) ["x", "y"] "d") "x" "y" =
        some v ∧
      (([] : List DataRow).length < 2 →
        v = (if ("x" : String) = "y" then JsNum.num 1 else JsNum.num 0)) :=
  ⟨by simp, by simp, c10_total [] ["x", "y"] "d" "x" "y" (by simp) (by simp)⟩

/-! ## mapE and statistics helper lemmas -/

theorem mapE_cons_ok {α β : Type} {f : α → Except String β} {a : α} {t : List α}
    {ys : List β} (h : mapE f (a :: t) = .ok ys) :
    ∃ b bs, f a = .ok b ∧ mapE f t = .ok bs ∧ ys = b :: bs := by
  rw [mapE] at h
  cases hfa : f a with
  | error e => rw [hfa, exBind_err] at h; cases h
  | ok b =>
      rw [hfa, exBind_ok] at h
      cases hmt : mapE f t with
      | error e => rw [hmt, exBind_err] at h; cases h
      | ok bs =>
          rw [hmt, exBind_ok] at h
          exact ⟨b, bs, rfl, rfl, (Except.ok.inj h).symm⟩

theorem mapE_cons_of_ok {α β : Type} {f : α → Except String β} {a : α} {t : List α}
    {b : β} {bs : List β} (h1 : f a = .ok b) (h2 : mapE f t = .ok bs) :
    mapE f (a :: t) = .ok (b :: bs) := by
  rw [mapE, h1, exBind_ok, h2, exBind_ok]
  rfl

theorem mapE_cons_err {α β : Type} {f : α → Except String β} {a : α} {t : List α}
    {e : String} (h : f a = .error e) : mapE f (a :: t) = .error e := by
  rw [mapE, h, exBind_err]

theorem mapE_ok_length {α β : Type} {f : α → Except String β} :
    ∀ {l : List α} {ys : List β}, mapE f l = .ok ys → ys.length = l.length := by
  intro l
  induction l with
  | nil =>
      intro ys h
      rw [mapE] at h
      cases h
      rfl
  | cons a t ih =>
      intro ys h
      rcases mapE_cons_ok h with ⟨b, bs, _, hmt, rfl⟩
      simp [ih hmt]

theorem mapE_ok_get {α β : Type} {f : α → Except String β} :
    ∀ {l : List α} {ys : List β}, mapE f l = .ok ys →
      ∀ i (hi : i < l.length) (hy : i < ys.length),
        f (l.get ⟨i, hi⟩) = .ok (ys.get ⟨i, hy⟩) := by
  intro l
  induction l with
  | nil => intro ys _ i hi; cases hi
  | cons a t ih =>
      intro ys h i hi hy
      rcases mapE_cons_ok h with ⟨b, bs, hfa, hmt, rfl⟩
      cases i with
      | zero => simpa using hfa
      | succ j =>
          have hj : j < t.length := by simpa using hi
          have hjy : j < bs.length := by
            rw [mapE_ok_length hmt]
            exact hj
          simpa using ih hmt j hj hjy

theorem mapE_ok_exists {α β : Type} {f : α → Except String β} :
    ∀ {l : List α}, (∀ a ∈ l, ∃ b, f a = .ok b) → ∃ ys, mapE f l = .ok ys := by
  intro l
  induction l with
  | nil => intro _; exact ⟨[], rfl⟩
  | cons a t ih =>
      intro h
      rcases h a (List.mem_cons_self a t) with ⟨b, hb⟩
      rcases ih (fun x hx => h x (List.mem_cons_of_mem a hx)) with ⟨bs, hbs⟩
      exact ⟨b :: bs, mapE_cons_of_ok hb hbs⟩

theorem mapE_eq_ok_map {α β : Type} {f : α → Except String β} :
    ∀ {l : List α} {g : ℕ → β},
      (∀ i (hi : i < l.length), f (l.get ⟨i, hi⟩) = .ok (g i)) →
      mapE f l = .ok ((List.range l.length).map g) := by
  intro l
  induction l with
  | nil => intro g _; rfl
  | cons a t ih =>
      intro g h
      have h0 : f a = .ok (g 0) := by simpa using h 0 (by simp)
      have ht : mapE f t = .ok ((List.range t.length).map (fun i => g (i + 1))) := by
        apply ih
        intro i hi
        simpa using h (i + 1) (by simpa using hi)
      have := mapE_cons_of_ok h0 ht
      rw [this]
      congr 1
      rw [List.length_cons, List.range_succ_eq_map, List.map_cons, List.map_map]
      rfl

theorem ssMean_ok {l : List ℝ} (h : l.length ≠ 0) : ssMean l = .ok (meanVal l) := by
  rw [ssMean, if_neg h]

theorem ssVariance_ok {l : List ℝ} (h : l.length ≠ 0) : ssVariance l = .ok (popVarV l) := by
  rw [ssVariance, if_neg h]

theorem ssStandardDeviation_ok {l : List ℝ} (h : l.length ≠ 0) :
    ssStandardDeviation l = .ok (popStdModel l) := by
  by_cases h1 : l.length = 1
  · rw [ssStandardDeviation, if_pos h1, popStdModel, if_pos h1]
  · rw [ssStandardDeviation, if_neg h1, popStdModel, if_neg h1, ssVariance_ok h]
    rfl

theorem sum_const_list {c : ℝ} :
    ∀ {l : List ℝ}, (∀ x ∈ l, x = c) → l.sum = c * l.length := by
  intro l
  induction l with
  | nil => intro _; simp
  | cons a t ih =>
      intro h
      have ha : a = c := h a (List.mem_cons_self a t)
      have ht := ih (fun x hx => h x (List.mem_cons_of_mem a hx))
      simp [ha, ht]
      ring

theorem meanVal_const {c : ℝ} {l : List ℝ} (hne : l ≠ []) (h : ∀ x ∈ l, x = c) :
    meanVal l = c := by
  have hlen : (l.length : ℝ) ≠ 0 := by
    simpa [List.length_eq_zero] using hne
  rw [meanVal, sum_const_list h, mul_div_cancel_right₀ c hlen]

/-! ## Claim C4 -/

theorem standardizerFit_inv {m : List (List ℝ)} {nc : ℕ} {means stds : List ℝ}
    (h : standardizerFit m nc = .ok (means, stds)) :
    mapE (fun i => ssMean (columnOf m i)) (List.range nc) = .ok means ∧
    mapE (fun i => do
      let s ← ssStandardDeviation (columnOf m i)
      pure (jsOr1 s)) (List.range nc) = .ok stds := by
  rw [standardizerFit] at h
  cases hms : mapE (fun i => ssMean (columnOf m i)) (List.range nc) with
  | error e => rw [hms, exBind_err] at h; cases h
  | ok ms =>
      rw [hms, exBind_ok] at h
      cases hss : mapE (fun i => do
          let s ← ssStandardDeviation (columnOf m i)
          pure (jsOr1 s)) (List.range nc) with
      | error e => rw [hss, exBind_err] at h; cases h
      | ok ss =>
          rw [hss, exBind_ok] at h
          have hpair := Except.ok.inj h
          injection hpair with h1 h2
          subst h1
          subst h2
          exact ⟨rfl, rfl⟩

theorem enum_map_getD (row : List ℝ) (f : ℕ × ℝ → ℝ) (i : ℕ) :
    (row.enum.map f).getD i 0 =
      if h : i < row.length then f (i, row.get ⟨i, h⟩) else 0 := by
  by_cases h : i < row.length
  · rw [dif_pos h]
    have hlen : i < (row.enum.map f).length := by
      simpa [List.enum_length] using h
    have h1 : (row.enum.map f).get ⟨i, hlen⟩ = f (i, row.get ⟨i, h⟩) := by
      simp [List.get_eq_getElem, List.getElem_map, List.getElem_enum]
    rw [List.getD_eq_get _ 0 hlen, h1]
  · rw [dif_neg h]
    apply List.getD_eq_default
    simpa [List.enum_length] using le_of_not_lt h

/-- Claim C4 (amended): the Standardizer fit computes, for every column,
the mean and the POPULATION standard deviation (simple-statistics
standardDeviation: 0 for a single row, otherwise the square root of the
n-divisor variance), substituting 1 when that value is 0, and apply
computes elementwise (x - mean) / std; consequently a constant column
standardizes to exactly 0 for every row. -/
theorem c4_amended (m : List (List ℝ)) (nc : ℕ) (means stds : List ℝ)
    (h : standardizerFit m nc = .ok (means, stds)) :
    (∀ i, i < nc → means.getD i 0 = meanVal (columnOf m i) ∧
      stds.getD i 0 = jsOr1 (popStdModel (columnOf m i))) ∧
    (∀ i c, i < nc → (∀ row ∈ m, row.getD i 0 = c) → m ≠ [] →
      ∀ srow ∈ standardizerApply m means stds, srow.getD i 0 = 0) := by
  rcases standardizerFit_inv h with ⟨hms, hss⟩
  have hmlen : means.length = nc := by simpa using mapE_ok_length hms
  have hslen : stds.length = nc := by simpa using mapE_ok_length hss
  have hmean : ∀ i, i < nc → means.getD i 0 = meanVal (columnOf m i) := by
    intro i hi
    have hir : i < (List.range nc).length := by simpa using hi
    have hiy : i < means.length := by rw [hmlen]; exact hi
    have hget := mapE_ok_get hms i hir hiy
    rw [List.get_range] at hget
    have hcol : (columnOf m i).length ≠ 0 := by
      intro hz
      rw [ssMean, if_pos hz] at hget
      cases hget
    rw [ssMean_ok hcol] at hget
    rw [List.getD_eq_getElem _ _ hiy]
    exact (Except.ok.inj hget).symm
  have hstd : ∀ i, i < nc → stds.getD i 0 = jsOr1 (popStdModel (columnOf m i)) := by
    intro i hi
    have hir : i < (List.range nc).length := by simpa using hi
    have hiy : i < stds.length := by rw [hslen]; exact hi
    have hget := mapE_ok_get hss i hir hiy
    rw [List.get_range] at hget
    cases hsd : ssStandardDeviation (columnOf m i) with
    | error e => rw [hsd, exBind_err] at hget; cases hget
    | ok s =>
        rw [hsd, exBind_ok] at hget
        have hcol : (columnOf m i).length ≠ 0 := by
          intro hz
          rw [ssStandardDeviation, if_neg (by rw [hz]; norm_num),
            ssVariance, if_pos hz, exBind_err] at hsd
          cases hsd
        rw [ssStandardDeviation_ok hcol] at hsd
        have hsval : s = popStdModel (columnOf m i) := (Except.ok.inj hsd).symm
        rw [List.getD_eq_getElem _ _ hiy]
        rw [hsval] at hget
        exact (Except.ok.inj hget).symm
  refine ⟨fun i hi => ⟨hmean i hi, hstd i hi⟩, ?_⟩
  intro i c hi hconst hne srow hsrow
  rcases List.mem_map.1 hsrow with ⟨row, hrow, rfl⟩
  rw [enum_map_getD]
  by_cases hlt : i < row.length
  · rw [dif_pos hlt]
    have hcc : meanVal (columnOf m i) = c := by
      apply meanVal_const
      · simpa [columnOf, List.length_eq_zero] using
          (fun hz => hne (by simpa [columnOf] using congrArg List.length hz))
      · intro x hx
        rcases List.mem_map.1 hx with ⟨r, hr, rfl⟩
        exact hconst r hr
    have hrg : row.get ⟨i, hlt⟩ = c := by
      have := hconst row hrow
      rw [← this, List.getD_eq_getElem _ _ hlt]
      rfl
    rw [hrg, hmean i hi, hcc, sub_self, zero_div]
  · rw [dif_neg hlt]

/-- Claim C4 counterexample: on the single column [0, 2], fit produces the
standard deviation 1 (the population value), while the claimed sample
standard deviation is sqrt 2, which is not 1. -/
theorem c4_counterexample :
    standardizerFit [[(0 : ℝ)], [2]] 1 = .ok ([1], [1]) ∧
    Real.sqrt (sampleVarV [(0 : ℝ), 2]) ≠ 1 := by
  constructor
  · have hcol : columnOf [[(0 : ℝ)], [2]] 0 = [0, 2] := by
      simp [columnOf]
    have hmean : ssMean (columnOf [[(0 : ℝ)], [2]] 0) = .ok 1 := by
      rw [hcol, ssMean_ok (by norm_num)]
      norm_num [meanVal]
    have hstd : ssStandardDeviation (columnOf [[(0 : ℝ)], [2]] 0) = .ok 1 := by
      rw [hcol, ssStandardDeviation_ok (by norm_num), popStdModel]
      have hvar : popVarV [(0 : ℝ), 2] = 1 := by
        norm_num [popVarV, meanVal]
      norm_num [hvar]
    have hf2 : (do
        let s ← ssStandardDeviation (columnOf [[(0 : ℝ)], [2]] 0)
        pure (jsOr1 s) : Except String ℝ) = .ok 1 := by
      rw [hstd, exBind_ok]
      show Except.ok (jsOr1 1) = Except.ok 1
      rw [jsOr1, if_neg (by norm_num)]
    rw [standardizerFit]
    rw [show List.range 1 = [0] from by decide]
    rw [show mapE (fun i => ssMean (columnOf [[(0 : ℝ)], [2]] i)) [0] = .ok [1] from
      mapE_cons_of_ok hmean rfl, exBind_ok]
    rw [show mapE (fun i => (do
        let s ← ssStandardDeviation (columnOf [[(0 : ℝ)], [2]] i)
        pure (jsOr1 s) : Except String ℝ)) [0] = .ok [1] from
      mapE_cons_of_ok hf2 rfl, exBind_ok]
    rfl
  · have hv : sampleVarV [(0 : ℝ), 2] = 2 := by
      norm_num [sampleVarV, meanVal]
    rw [hv]
    intro h
    have h1 := Real.sqrt_eq_one.1 h
    norm_num at h1

/-- Claim C4 witness: the amended theorem applied to a concrete fit. -/
theorem c4_witness :
    standardizerFit [[(3 : ℝ)], [3]] 1 = .ok ([3], [1]) ∧
    ([(3 : ℝ)] : List ℝ).getD 0 0 = meanVal (columnOf [[(3 : ℝ)], [3]] 0) ∧
    ([(1 : ℝ)] : List ℝ).getD 0 0 = jsOr1 (popStdModel (columnOf [[(3 : ℝ)], [3]] 0)) := by
  have hcol : columnOf [[(3 : ℝ)], [3]] 0 = [3, 3] := by
    simp [columnOf]
  have hmean : ssMean (columnOf [[(3 : ℝ)], [3]] 0) = .ok 3 := by
    rw [hcol, ssMean_ok (by norm_num)]
    norm_num [meanVal]
  have hstd : ssStandardDeviation (columnOf [[(3 : ℝ)], [3]] 0) = .ok 0 := by
    rw [hcol, ssStandardDeviation_ok (by norm_num), popStdModel]
    have hvar : popVarV [(3 : ℝ), 3] = 0 := by
      norm_num [popVarV, meanVal]
    norm_num [hvar]
  have hf2 : (do
      let s ← ssStandardDeviation (columnOf [[(3 : ℝ)], [3]] 0)
      pure (jsOr1 s) : Except String ℝ) = .ok 1 := by
    rw [hstd, exBind_ok]
    show Except.ok (jsOr1 0) = Except.ok 1
    rw [jsOr1, if_pos rfl]
  have hfit : standardizerFit [[(3 : ℝ)], [3]] 1 = .ok ([3], [1]) := by
    rw [standardizerFit]
    rw [show List.range 1 = [0] from by decide]
    rw [show mapE (fun i => ssMean (columnOf [[(3 : ℝ)], [3]] i)) [0] = .ok [3] from
      mapE_cons_of_ok hmean rfl, exBind_ok]
    rw [show mapE (fun i => (do
        let s ← ssStandardDeviation (columnOf [[(3 : ℝ)], [3]] i)
        pure (jsOr1 s) : Except String ℝ)) [0] = .ok [1] from
      mapE_cons_of_ok hf2 rfl, exBind_ok]
    rfl
  have h := c4_amended [[(3 : ℝ)], [3]] 1 [3] [1] hfit
  exact ⟨hfit, (h.1 0 (by norm_num)).1, (h.1 0 (by norm_num)).2⟩

/-! ## Claim C5 -/

theorem mapE_eq_ok_of_forall {α β : Type} {f : α → Except String β} {g : α → β} :
    ∀ {l : List α}, (∀ a ∈ l, f a = .ok (g a)) → mapE f l = .ok (l.map g) := by
  intro l
  induction l with
  | nil => intro _; rfl
  | cons a t ih =>
      intro h
      exact mapE_cons_of_ok (h a (List.mem_cons_self a t))
        (ih (fun x hx => h x (List.mem_cons_of_mem a hx)))

theorem statsCellE_eval (raw : List DataRow) (vals : List ℝ) (col : String) :
    statsCellE raw vals col = .ok
      ((col, if raw.length > 0 then meanVal (raw.map (fun d => cellNum d col)) else 0),
       (col, ScaledStat.mk (if vals.length > 0 then meanVal vals else 0)
         (if vals.length > 1 then popVarV vals else 0))) := by
  have hraw : (if raw.length > 0 then ssMean (raw.map (fun d => cellNum d col))
      else pure 0) = Except.ok (if raw.length > 0 then
        meanVal (raw.map (fun d => cellNum d col)) else 0) := by
    by_cases hr : raw.length > 0
    · rw [if_pos hr, if_pos hr]
      exact ssMean_ok (by simpa using Nat.pos_iff_ne_zero.1 hr)
    · rw [if_neg hr, if_neg hr]
      rfl
  have hsst : (if vals.length > 0 then
        ssMean vals >>= fun mn =>
        (if vals.length > 1 then ssVariance vals else pure 0) >>= fun vr =>
        pure (ScaledStat.mk mn vr)
      else pure (ScaledStat.mk 0 0)) = Except.ok
        (ScaledStat.mk (if vals.length > 0 then meanVal vals else 0)
          (if vals.length > 1 then popVarV vals else 0)) := by
    by_cases hv : vals.length > 0
    · have hvz : vals.length ≠ 0 := Nat.pos_iff_ne_zero.1 hv
      rw [if_pos hv, if_pos hv, ssMean_ok hvz, exBind_ok]
      by_cases hv1 : vals.length > 1
      · rw [if_pos hv1, if_pos hv1, ssVariance_ok hvz, exBind_ok]
        rfl
      · rw [if_neg hv1, if_neg hv1]
        rfl
    · have hv1 : ¬ vals.length > 1 := by omega
      rw [if_neg hv, if_neg hv, if_neg hv1]
      rfl
  rw [statsCellE, hraw, exBind_ok, hsst, exBind_ok]
  rfl

theorem clusterStatsAgg_eval (finalData : List DataRow) (finalMatrix : List (List ℝ))
    (clusters : List ℕ) (k : ℕ) (cols : List String) :
    clusterStatsAgg finalData finalMatrix clusters k cols = .ok
      ((List.range k).map (fun i => (i, cols.enum.map (fun q =>
          (q.2, if (clusterMembers finalData clusters k i).length > 0 then
            meanVal ((clusterMembers finalData clusters k i).map (fun d => cellNum d q.2))
          else 0)))),
       (List.range k).map (fun i => (i, cols.enum.map (fun q =>
          (q.2, ScaledStat.mk
            (if ((clusterMembers finalMatrix clusters k i).map
                (fun row => row.getD q.1 0)).length > 0 then
              meanVal ((clusterMembers finalMatrix clusters k i).map
                (fun row => row.getD q.1 0))
            else 0)
            (if ((clusterMembers finalMatrix clusters k i).map
                (fun row => row.getD q.1 0)).length > 1 then
              popVarV ((clusterMembers finalMatrix clusters k i).map
                (fun row => row.getD q.1 0))
            else 0)))))) := by
  rw [clusterStatsAgg]
  have houter : mapE (fun i => do
      let colStats ← mapE (fun q =>
        statsCellE (clusterMembers finalData clusters k i)
          ((clusterMembers finalMatrix clusters k i).map (fun row => row.getD q.1 0))
          q.2) cols.enum
      pure ((i, colStats.map (fun s => s.1)), (i, colStats.map (fun s => s.2))))
      (List.range k) = .ok ((List.range k).map (fun i =>
        ((i, cols.enum.map (fun q =>
          (q.2, if (clusterMembers finalData clusters k i).length > 0 then
            meanVal ((clusterMembers finalData clusters k i).map (fun d => cellNum d q.2))
          else 0))),
         (i, cols.enum.map (fun q =>
          (q.2, ScaledStat.mk
            (if ((clusterMembers finalMatrix clusters k i).map
                (fun row => row.getD q.1 0)).length > 0 then
              meanVal ((clusterMembers finalMatrix clusters k i).map
                (fun row => row.getD q.1 0))
            else 0)
            (if ((clusterMembers finalMatrix clusters k i).map
                (fun row => row.getD q.1 0)).length > 1 then
              popVarV ((clusterMembers finalMatrix clusters k i).map
                (fun row => row.getD q.1 0))
            else 0))))))) := by
    apply mapE_eq_ok_of_forall
    intro i _
    rw [mapE_eq_ok_of_forall (fun q _ => statsCellE_eval
      (clusterMembers finalData clusters k i)
      ((clusterMembers finalMatrix clusters k i).map (fun row => row.getD q.1 0)) q.2),
      exBind_ok]
    rw [List.map_map, List.map_map]
    rfl
  rw [houter, exBind_ok]
  rw [List.map_map, List.map_map]
  rfl

theorem getD_map_range {β : Type} (g : ℕ → β) {k i : ℕ} (hi : i < k) (d : β) :
    ((List.range k).map g).getD i d = g i := by
  have hlen : i < ((List.range k).map g).length := by simpa using hi
  rw [List.getD_eq_getElem _ _ hlen, List.getElem_map, List.getElem_range]

theorem getD_map_enum {α β : Type} (l : List α) (g : ℕ × α → β) {i : ℕ}
    (hi : i < l.length) (d : β) :
    (l.enum.map g).getD i d = g (i, l.get ⟨i, hi⟩) := by
  have hlen : i < (l.enum.map g).length := by simpa [List.enum_length] using hi
  rw [List.getD_eq_getElem _ _ hlen, List.getElem_map]
  congr 1
  exact List.getElem_enum _ _ _

/-- Claim C5 (amended): for every cluster id in [0, k) and every selected
column, the scaledStats table reports the standardized-scale mean and the
POPULATION variance (n divisor, simple-statistics variance) over the
scaled member values - with variance 0 for clusters of fewer than 2
members - and a cluster with zero members reports mean 0 and variance 0
rather than failing. -/
theorem c5_amended (finalData : List DataRow) (finalMatrix : List (List ℝ))
    (clusters : List ℕ) (k : ℕ) (cols : List String)
    (stats : List (ℕ × List (String × ℝ)))
    (scaled : List (ℕ × List (String × ScaledStat)))
    (h : clusterStatsAgg finalData finalMatrix clusters k cols = .ok (stats, scaled)) :
    scaled.length = k ∧
    ∀ i, i < k → ∀ ci, ci < cols.length →
      (scaled.getD i (0, [])).1 = i ∧
      (scaled.getD i (0, [])).2.getD ci ("", ScaledStat.mk 0 0) =
        (cols.getD ci "",
         ScaledStat.mk
           (if ((clusterMembers finalMatrix clusters k i).map
               (fun row => row.getD ci 0)).length > 0 then
             meanVal ((clusterMembers finalMatrix clusters k i).map
               (fun row => row.getD ci 0))
           else 0)
           (if ((clusterMembers finalMatrix clusters k i).map
               (fun row => row.getD ci 0)).length > 1 then
             popVarV ((clusterMembers finalMatrix clusters k i).map
               (fun row => row.getD ci 0))
           else 0)) := by
  rw [clusterStatsAgg_eval] at h
  have hpair := Except.ok.inj h
  have hscaled := congrArg Prod.snd hpair
  simp only at hscaled
  subst hscaled
  constructor
  · simp
  · intro i hi ci hci
    rw [getD_map_range _ hi]
    refine ⟨rfl, ?_⟩
    rw [getD_map_enum cols _ hci]
    rw [List.getD_eq_getElem cols "" hci]
    rfl

theorem aggEvalDemo :
    clusterStatsAgg [wRow 0, wRow 0] [[(-1 : ℝ)], [1]] [0, 0] 1 ["a"] =
      .ok ([(0, [("a", 0)])], [(0, [("a", ScaledStat.mk 0 1)])]) := by
  rw [clusterStatsAgg_eval]
  have hmem : clusterMembers [wRow (0 : ℝ), wRow 0] [0, 0] 1 0 = [wRow 0, wRow 0] := by
    simp [clusterMembers, List.enum, List.enumFrom]
  have hmemScaled : clusterMembers [[(-1 : ℝ)], [1]] [0, 0] 1 0 = [[(-1 : ℝ)], [1]] := by
    simp [clusterMembers, List.enum, List.enumFrom]
  simp only [show List.range 1 = [0] from by decide, List.map_cons, List.map_nil,
    hmem, hmemScaled, List.enum, List.enumFrom]
  norm_num [cellNum, wRow, meanVal, popVarV]

/-- Claim C5 counterexample: a cluster whose scaled member values are
[-1, 1] is reported with variance 1 (the population value), while the
claimed sample variance (n - 1 divisor) of those members is 2. -/
theorem c5_counterexample :
    clusterStatsAgg [wRow 0, wRow 0] [[(-1 : ℝ)], [1]] [0, 0] 1 ["a"] =
      .ok ([(0, [("a", 0)])], [(0, [("a", ScaledStat.mk 0 1)])]) ∧
    sampleVarV [(-1 : ℝ), 1] = 2 ∧ (1 : ℝ) ≠ 2 := by
  refine ⟨aggEvalDemo, ?_, by norm_num⟩
  norm_num [sampleVarV, meanVal]

/-- Claim C5 witness: the amended theorem applied to the concrete
aggregation of aggEvalDemo, read at cluster 0 and column 0. -/
theorem c5_witness :
    (0 : ℕ) < 1 ∧ (0 : ℕ) < (["a"] : List String).length ∧
    (([(0, [("a", ScaledStat.mk 0 1)])] :
        List (ℕ × List (String × ScaledStat))).getD 0 (0, [])).2.getD 0
        ("", ScaledStat.mk 0 0) =
      ((["a"] : List String).getD 0 "",
       ScaledStat.mk
         (if ((clusterMembers [[(-1 : ℝ)], [1]] [0, 0] 1 0).map
             (fun row => row.getD 0 0)).length > 0 then
           meanVal ((clusterMembers [[(-1 : ℝ)], [1]] [0, 0] 1 0).map
             (fun row => row.getD 0 0))
         else 0)
         (if ((clusterMembers [[(-1 : ℝ)], [1]] [0, 0] 1 0).map
             (fun row => row.getD 0 0)).length > 1 then
           popVarV ((clusterMembers [[(-1 : ℝ)], [1]] [0, 0] 1 0).map
             (fun row => row.getD 0 0))
         else 0)) :=
  ⟨by norm_num, by norm_num,
    ((c5_amended [wRow 0, wRow 0] [[(-1 : ℝ)], [1]] [0, 0] 1 ["a"]
      [(0, [("a", 0)])] [(0, [("a", ScaledStat.mk 0 1)])] aggEvalDemo).2
        0 (by norm_num) 0 (by norm_num)).2⟩

/-! ## Claim C8 -/

theorem bestStep_none (km : KmeansFn) (mx : List (List ℝ)) (b k : ℕ) :
    bestStep km mx (none, b) k = (some (silAt km mx k), k) := rfl

theorem bestStep_some (km : KmeansFn) (mx : List (List ℝ)) (m : ℝ) (b k : ℕ) :
    bestStep km mx (some m, b) k =
      if m < silAt km mx k then (some (silAt km mx k), k) else (some m, b) := rfl

theorem sweep_fold_fst (km : KmeansFn) (mx : List (List ℝ)) :
    ∀ (L : List ℕ) (ms : List KMetric) (st : Option ℝ × ℕ),
      (L.foldl (sweepStep km mx) (ms, st)).1 = ms ++ L.map (sweepMetric km mx) := by
  intro L
  induction L with
  | nil => intro ms st; simp
  | cons a t ih =>
      intro ms st
      rw [List.foldl_cons]
      have hstep : sweepStep km mx (ms, st) a =
          (ms ++ [sweepMetric km mx a], bestStep km mx st a) := rfl
      rw [hstep, ih (ms ++ [sweepMetric km mx a]) (bestStep km mx st a),
        List.append_assoc]
      rfl

theorem sweep_fold_snd (km : KmeansFn) (mx : List (List ℝ)) :
    ∀ (L : List ℕ) (ms : List KMetric) (st : Option ℝ × ℕ),
      (L.foldl (sweepStep km mx) (ms, st)).2 = L.foldl (bestStep km mx) st := by
  intro L
  induction L with
  | nil => intro ms st; rfl
  | cons a t ih =>
      intro ms st
      rw [List.foldl_cons, List.foldl_cons]
      exact ih (ms ++ [sweepMetric km mx a]) (bestStep km mx st a)

theorem bestFold_spec (km : KmeansFn) (mx : List (List ℝ)) (L : List ℕ)
    (hp : L.Pairwise (· < ·)) :
    (L.foldl (bestStep km mx) (none, 2) = (none, 2) ∧ L = []) ∨
    (∃ b, L.foldl (bestStep km mx) (none, 2) = (some (silAt km mx b), b) ∧ b ∈ L ∧
      (∀ k ∈ L, silAt km mx k ≤ silAt km mx b) ∧
      (∀ k ∈ L, k < b → silAt km mx k < silAt km mx b)) := by
  induction L using List.reverseRecOn with
  | nil => exact Or.inl ⟨rfl, rfl⟩
  | append_singleton t x ih =>
      have hpt : t.Pairwise (· < ·) := (List.pairwise_append.1 hp).1
      have hlt : ∀ k ∈ t, k < x := by
        intro k hk
        exact (List.pairwise_append.1 hp).2.2 k hk x (List.mem_cons_self x [])
      rw [List.foldl_concat]
      rcases ih hpt with ⟨hfold, hnil⟩ | ⟨b, hfold, hmem, hle, hstrict⟩
      · rw [hfold, bestStep_none]
        subst hnil
        refine Or.inr ⟨x, rfl, by simp, ?_, ?_⟩
        · intro k hk
          have : k = x := by simpa using hk
          rw [this]
        · intro k hk hkx
          have : k = x := by simpa using hk
          omega
      · rw [hfold, bestStep_some]
        by_cases hgt : silAt km mx b < silAt km mx x
        · rw [if_pos hgt]
          refine Or.inr ⟨x, rfl, by simp, ?_, ?_⟩
          · intro k hk
            rcases List.mem_append.1 hk with hk | hk
            · exact le_of_lt (lt_of_le_of_lt (hle k hk) hgt)
            · have : k = x := by simpa using hk
              rw [this]
          · intro k hk hkx
            rcases List.mem_append.1 hk with hk | hk
            · exact lt_of_le_of_lt (hle k hk) hgt
            · have : k = x := by simpa using hk
              omega
        · rw [if_neg hgt]
          refine Or.inr ⟨b, rfl, List.mem_append.2 (Or.inl hmem), ?_, ?_⟩
          · intro k hk
            rcases List.mem_append.1 hk with hk | hk
            · exact hle k hk
            · have : k = x := by simpa using hk
              rw [this]
              exact le_of_not_lt hgt
          · intro k hk hkb
            rcases List.mem_append.1 hk with hk | hk
            · exact hstrict k hk hkb
            · have hkx : k = x := by simpa using hk
              have hbx : b < x := hlt b hmem
              omega

theorem kCandidates_pairwise (n : ℕ) : (kCandidates n).Pairwise (· < ·) :=
  List.pairwise_lt_range' 2 (min 10 (n - 1) + 1 - 2) 1 (by norm_num)

theorem kCandidates_mem {n k : ℕ} :
    k ∈ kCandidates n ↔ 2 ≤ k ∧ k ≤ min 10 (n - 1) := by
  rw [kCandidates, List.mem_range'_1]
  omega

/-- Claim C8 (confirmed): for every clustered matrix with n >= 3 rows, the
K-Selector records one (k, inertia, meanSilhouette) metric per candidate k
in [2, min(10, n-1)] in sweep order, and returns a k inside
[2, min(10, n-1)] whose mean silhouette is maximal over the sweep, with
ties broken in favor of the smallest (first-seen) k; it never returns a k
outside that interval. -/
theorem c8_kSelector (km : KmeansFn) (matrix : List (List ℝ))
    (h3 : 3 ≤ matrix.length) :
    (getSuggestedK km matrix).1 = (kCandidates matrix.length).map (sweepMetric km matrix) ∧
    2 ≤ (getSuggestedK km matrix).2 ∧
    (getSuggestedK km matrix).2 ≤ min 10 (matrix.length - 1) ∧
    (∀ k ∈ kCandidates matrix.length,
      silAt km matrix k ≤ silAt km matrix (getSuggestedK km matrix).2) ∧
    (∀ k ∈ kCandidates matrix.length, k < (getSuggestedK km matrix).2 →
      silAt km matrix k < silAt km matrix (getSuggestedK km matrix).2) := by
  have hne : (2 : ℕ) ∈ kCandidates matrix.length := by
    rw [kCandidates_mem]
    omega
  have hm : (getSuggestedK km matrix).1 =
      (kCandidates matrix.length).map (sweepMetric km matrix) := by
    rw [getSuggestedK]
    exact sweep_fold_fst km matrix (kCandidates matrix.length) [] (none, 2)
  have hb : (getSuggestedK km matrix).2 =
      ((kCandidates matrix.length).foldl (bestStep km matrix) (none, 2)).2 := by
    rw [getSuggestedK]
    have := sweep_fold_snd km matrix (kCandidates matrix.length) [] (none, 2)
    rw [this]
  rcases bestFold_spec km matrix (kCandidates matrix.length)
      (kCandidates_pairwise matrix.length) with ⟨_, hnil⟩ | ⟨b, hfold, hmem, hle, hstrict⟩
  · rw [hnil] at hne
    cases hne
  · have hbb : (getSuggestedK km matrix).2 = b := by
      rw [hb, hfold]
    rcases kCandidates_mem.1 hmem with ⟨hb2, hbmax⟩
    refine ⟨hm, ?_, ?_, ?_, ?_⟩
    · rw [hbb]; exact hb2
    · rw [hbb]; exact hbmax
    · intro k hk
      rw [hbb]
      exact hle k hk
    · intro k hk hklt
      rw [hbb] at hklt ⊢
      exact hstrict k hk hklt

/-- Claim C8 witness: the theorem applied to a concrete 3-row matrix. -/
theorem c8_witness :
    3 ≤ ([[0], [0], [0]] : List (List ℝ)).length ∧
    2 ≤ (getSuggestedK constKmeans [[0], [0], [0]]).2 ∧
    (getSuggestedK constKmeans [[0], [0], [0]]).2 ≤
      min 10 (([[0], [0], [0]] : List (List ℝ)).length - 1) := by
  have h := c8_kSelector constKmeans [[0], [0], [0]] (by simp)
  exact ⟨by simp, h.2.1, h.2.2.1⟩

/-! ## Claim C7 -/

theorem euclid_nonneg (a b : List ℝ) : 0 ≤ euclideanDistance a b :=
  Real.sqrt_nonneg _

theorem euclid_self (p : List ℝ) : euclideanDistance p p = 0 := by
  rw [euclideanDistance, List.zipWith_same]
  have hz : (p.map (fun a => (a - a) ^ 2)).sum = 0 := by
    apply List.sum_eq_zero
    intro x hx
    rcases List.mem_map.1 hx with ⟨w, _, rfl⟩
    simp
  rw [hz, Real.sqrt_zero]

theorem perm_get_eraseIdx {α : Type} :
    ∀ (l : List α) (i : ℕ) (h : i < l.length), l.Perm (l.get ⟨i, h⟩ :: l.eraseIdx i) := by
  intro l
  induction l with
  | nil => intro i h; cases h
  | cons a t ih =>
      intro i h
      cases i with
      | zero => rfl
      | succ j =>
          have hj : j < t.length := by simpa using h
          have h1 : (a :: t).Perm (a :: (t.get ⟨j, hj⟩ :: t.eraseIdx j)) :=
            (ih j hj).cons a
          have h2 : (a :: (t.get ⟨j, hj⟩ :: t.eraseIdx j)).Perm
              (t.get ⟨j, hj⟩ :: a :: t.eraseIdx j) :=
            List.Perm.swap (t.get ⟨j, hj⟩) a (t.eraseIdx j)
          exact h1.trans h2

theorem sortR_perm (l : List ℝ) : (sortR l).Perm l :=
  List.perm_insertionSort _ l

theorem sortR_sorted (l : List ℝ) : List.Sorted (· ≤ ·) (sortR l) :=
  List.sorted_insertionSort _ l

theorem sorted_zero_head (s : List ℝ) (hnn : ∀ x ∈ s, 0 ≤ x) (l : List ℝ)
    (hperm : l.Perm (0 :: s)) : sortR l = 0 :: sortR s := by
  apply List.eq_of_perm_of_sorted (r := (· ≤ ·))
  · exact (sortR_perm l).trans (hperm.trans ((sortR_perm s).symm.cons 0))
  · exact sortR_sorted l
  · rw [List.sorted_cons]
    refine ⟨?_, sortR_sorted s⟩
    intro y hy
    exact hnn y ((sortR_perm s).subset hy)

theorem sortR_length (l : List ℝ) : (sortR l).length = l.length :=
  (sortR_perm l).length_eq

theorem drop1_sort_dists (pts : List (List ℝ)) (i : ℕ) (h : i < pts.length) :
    ((sortR (pts.map (fun q => euclideanDistance (pts.get ⟨i, h⟩) q))).drop 1) =
      sortR ((pts.eraseIdx i).map (fun q => euclideanDistance (pts.get ⟨i, h⟩) q)) := by
  have hperm : (pts.map (fun q => euclideanDistance (pts.get ⟨i, h⟩) q)).Perm
      (0 :: (pts.eraseIdx i).map (fun q => euclideanDistance (pts.get ⟨i, h⟩) q)) := by
    have h1 := (perm_get_eraseIdx pts i h).map
      (fun q => euclideanDistance (pts.get ⟨i, h⟩) q)
    rw [List.map_cons, euclid_self] at h1
    exact h1
  have hnn : ∀ x ∈ (pts.eraseIdx i).map
      (fun q => euclideanDistance (pts.get ⟨i, h⟩) q), 0 ≤ x := by
    intro x hx
    rcases List.mem_map.1 hx with ⟨q, _, rfl⟩
    exact euclid_nonneg _ _
  rw [sorted_zero_head _ hnn _ hperm]
  rfl

theorem mapIf_filter_eq (c : ℝ) :
    ∀ (l : List (ℕ × ℝ)),
      ((l.map (fun p => if c < p.2 then (p.1 : ℤ) else -1)).filter (fun x => x ≠ -1)) =
        (l.filter (fun p => decide (c < p.2))).map (fun p => (p.1 : ℤ)) := by
  intro l
  induction l with
  | nil => rfl
  | cons p t ih =>
      simp only [ne_eq, decide_not] at ih
      by_cases hc : c < p.2
      · have hne : ¬ ((p.1 : ℤ) = -1) := by omega
        simp [decide_not, hc, hne, ih]
      · simp [decide_not, hc, ih]

/-- Claim C7 (confirmed): detectOutliers, given the full standardized
matrix, projects it to 2D, scores each point as the arithmetic mean of its
5 smallest non-self Euclidean distances in the projection (fewer when the
population is smaller), and flags exactly the points whose score strictly
exceeds mean(scores) + 2 * population-standard-deviation(scores); for a
population of fewer than 5 rows it skips detection and returns the empty
outlier set.  Stated as equality with the specification-worded detector,
for every length-preserving PCA projection. -/
theorem c7_detectOutliers (pca : PcaFn) (matrix : List (List ℝ))
    (hpca : ∀ m, (pca m).length = m.length) :
    detectOutliers pca matrix = .ok (specOutlierDetector pca matrix) := by
  by_cases h5 : matrix.length < 5
  · rw [detectOutliers, specOutlierDetector, if_pos h5, if_pos h5]
  · rw [detectOutliers, specOutlierDetector, if_neg h5, if_neg h5]
    have hlen : (pca matrix).length = matrix.length := hpca matrix
    have h5p : 5 ≤ (pca matrix).length := by omega
    have hscores : mapE (fun p1 => do
        let dists := (pca matrix).map (fun p2 => euclideanDistance p1 p2)
        ssMean (((sortR dists).drop 1).take 5)) (pca matrix) =
        .ok ((List.range (pca matrix).length).map (knnScore (pca matrix))) := by
      apply mapE_eq_ok_map
      intro i hi
      show ssMean (((sortR ((pca matrix).map
          (fun p2 => euclideanDistance ((pca matrix).get ⟨i, hi⟩) p2))).drop 1).take 5) =
        .ok (knnScore (pca matrix) i)
      rw [drop1_sort_dists (pca matrix) i hi]
      have hgetD : (pca matrix).getD i [] = (pca matrix).get ⟨i, hi⟩ := by
        rw [List.getD_eq_getElem _ _ hi]
        rfl
      have hlerase : (((pca matrix).eraseIdx i).map
          (fun q => euclideanDistance ((pca matrix).get ⟨i, hi⟩) q)).length =
          (pca matrix).length - 1 := by
        rw [List.length_map, List.length_eraseIdx]
        simp [hi]
      have htk : (((sortR (((pca matrix).eraseIdx i).map
          (fun q => euclideanDistance ((pca matrix).get ⟨i, hi⟩) q))).take 5)).length ≠ 0 := by
        rw [List.length_take, sortR_length, hlerase]
        omega
      rw [ssMean_ok htk, knnScore, hgetD, meanVal]
    rw [hscores, exBind_ok]
    have hsne : ((List.range (pca matrix).length).map (knnScore (pca matrix))).length ≠ 0 := by
      rw [List.length_map, List.length_range]
      omega
    rw [ssMean_ok hsne, exBind_ok, ssStandardDeviation_ok hsne, exBind_ok]
    have hstd : popStdModel ((List.range (pca matrix).length).map (knnScore (pca matrix))) =
        Real.sqrt (popVarV ((List.range (pca matrix).length).map (knnScore (pca matrix)))) := by
      rw [popStdModel, if_neg (by rw [List.length_map, List.length_range]; omega)]
    rw [hstd]
    exact congrArg Except.ok (mapIf_filter_eq _ _)

/-- Claim C7 witness: the theorem applied to the constant projection and a
concrete 5-row matrix. -/
theorem c7_witness :
    detectOutliers constPca [[0], [0], [0], [0], [0]] =
      .ok (specOutlierDetector constPca [[0], [0], [0], [0], [0]]) :=
  c7_detectOutliers constPca [[0], [0], [0], [0], [0]]
    (fun m => by simp [constPca])

/-! ## Pipeline helper lemmas (claims C1, C2, C9) -/

theorem columnOf_length (m : List (List ℝ)) (i : ℕ) : (columnOf m i).length = m.length :=
  List.length_map _ _

theorem filterOutliers_nil {α : Type} (l : List α) : filterOutliers l [] = l := by
  rw [filterOutliers]
  have hp : ∀ p : ℕ × α, (!(([] : List ℤ).contains (p.1 : ℤ))) = true := by
    intro p
    rfl
  rw [List.filter_eq_self.2 (fun p _ => hp p), List.enum_map_snd]

theorem filterOutliers_length {α : Type} (l : List α) (out : List ℤ) :
    (filterOutliers l out).length =
      ((List.range l.length).filter (fun i : ℕ => !(out.contains (i : ℤ)))).length := by
  rw [filterOutliers, List.length_map, ← List.enum_map_fst l, List.filter_map,
    List.length_map]
  rfl

theorem getSuggestedK_two (km : KmeansFn) (mx : List (List ℝ)) (h : mx.length = 2) :
    getSuggestedK km mx = ([], 2) := by
  rw [getSuggestedK, h]
  rfl

theorem standardizerApply_length (m : List (List ℝ)) (means stds : List ℝ) :
    (standardizerApply m means stds).length = m.length :=
  List.length_map _ _

theorem indexOf_range' :
    ∀ (cnt s i : ℕ), s ≤ i → i < s + cnt → (List.range' s cnt).indexOf i = i - s := by
  intro cnt
  induction cnt with
  | zero => intro s i h1 h2; omega
  | succ n ih =>
      intro s i h1 h2
      rw [List.range'_succ, List.indexOf_cons]
      by_cases hsi : s = i
      · subst hsi
        simp
      · have hbeq : (s == i) = false := by
          simp [hsi]
        rw [hbeq]
        have := ih (s + 1) i (by omega) (by omega)
        simp only [cond_false, this]
        omega

theorem indexOf_range {n i : ℕ} (h : i < n) : (List.range n).indexOf i = i := by
  rw [List.range_eq_range', indexOf_range' n 0 i (by omega) (by omega)]
  omega

theorem sum_indicator_range {v : ℤ} :
    ∀ (k : ℕ), 0 ≤ v → v < (k : ℤ) →
      ((List.range k).map (fun c : ℕ => if v = (c : ℤ) then (1 : ℕ) else 0)).sum = 1 := by
  intro k
  induction k with
  | zero =>
      intro h0 hk
      exfalso
      omega
  | succ n ih =>
      intro h0 hk
      rw [List.range_succ, List.map_append, List.sum_append]
      by_cases hv : v = (n : ℤ)
      · have hrest : ((List.range n).map (fun c : ℕ => if v = (c : ℤ) then (1 : ℕ) else 0)).sum
            = 0 := by
          apply List.sum_eq_zero
          intro x hx
          rcases List.mem_map.1 hx with ⟨c, hc, rfl⟩
          have hcn : c < n := List.mem_range.1 hc
          have hne : ¬ (v = (c : ℤ)) := by omega
          simp [hne]
        rw [hrest]
        simp [hv]
      · have hlt : v < (n : ℤ) := by
          have : v ≤ (n : ℤ) := by exact_mod_cast Int.lt_add_one_iff.1 (by exact_mod_cast hk)
          omega
        rw [ih h0 hlt]
        simp [hv]

theorem sum_map_add {α : Type} (f g : α → ℕ) :
    ∀ (l : List α), (l.map (fun x => f x + g x)).sum = (l.map f).sum + (l.map g).sum := by
  intro l
  induction l with
  | nil => simp
  | cons a t ih =>
      simp [ih]
      omega

theorem counts_sum {k : ℕ} :
    ∀ (l : List PcaPoint),
      (∀ p ∈ l, 0 ≤ p.cluster ∧ p.cluster < (k : ℤ)) →
      ((List.range k).map
        (fun c : ℕ => (l.filter (fun p => p.cluster = (c : ℤ))).length)).sum = l.length := by
  intro l
  induction l with
  | nil =>
      intro _
      simp
  | cons p t ih =>
      intro h
      have hp := h p (List.mem_cons_self p t)
      have ht := ih (fun q hq => h q (List.mem_cons_of_mem _ hq))
      have hsplit : ((List.range k).map
          (fun c : ℕ => ((p :: t).filter (fun q => q.cluster = (c : ℤ))).length)) =
          (List.range k).map (fun c : ℕ => (if p.cluster = (c : ℤ) then 1 else 0) +
            (t.filter (fun q => q.cluster = (c : ℤ))).length) := by
        apply List.map_congr_left
        intro c _
        rw [List.filter_cons]
        by_cases hc : p.cluster = (c : ℤ)
        · simp [hc]
          omega
        · simp [hc]
      rw [hsplit, sum_map_add, sum_indicator_range k hp.1 hp.2, ht]
      simp [Nat.add_comm]

theorem performClustering_inv (data : List DataRow) (cols : List String) (b : Bool)
    (pca : PcaFn) (km : KmeansFn) (r : ClusterResult)
    (h : performClustering data cols b pca km = .ok r) :
    ∃ fit out statsPair,
      standardizerFit (data.map (fun d => cols.map (fun col => cellNum d col)))
        cols.length = .ok fit ∧
      detectOutliers pca (standardizerApply
        (data.map (fun d => cols.map (fun col => cellNum d col))) fit.1 fit.2) = .ok out ∧
      (let fullScaledMatrix := standardizerApply
          (data.map (fun d => cols.map (fun col => cellNum d col))) fit.1 fit.2
       let finalMatrix := if b then filterOutliers fullScaledMatrix out
         else fullScaledMatrix
       let finalData := if b then filterOutliers data out else data
       let sk := getSuggestedK km finalMatrix
       let ans := km finalMatrix sk.2
       let sil := calculateSilhouette finalMatrix ans.clusters
       clusterStatsAgg finalData finalMatrix ans.clusters sk.2 cols = .ok statsPair ∧
       r = { k := sk.2, clusters := ans.clusters, centroids := ans.centroids,
             pcaData := pcaDataOf (pca fullScaledMatrix)
               (mappingIndicesOf data.length b out) ans.clusters out,
             outlierIndices := out, stats := statsPair.1, scaledStats := statsPair.2,
             metrics := sk.1, silhouetteSamples := sil.2, avgSilhouette := sil.1,
             selectedCols := cols, excludeOutliers := b }) := by
  simp only [performClustering] at h
  cases hfit : standardizerFit
      (data.map (fun d => cols.map (fun col => cellNum d col))) cols.length with
  | error e =>
      rw [hfit, exBind_err] at h
      cases h
  | ok fit =>
      rw [hfit, exBind_ok] at h
      cases hdet : detectOutliers pca (standardizerApply
          (data.map (fun d => cols.map (fun col => cellNum d col))) fit.1 fit.2) with
      | error e =>
          rw [hdet, exBind_err] at h
          cases h
      | ok out =>
          rw [hdet, exBind_ok] at h
          cases hagg : clusterStatsAgg
              (if b then filterOutliers data out else data)
              (if b then filterOutliers (standardizerApply
                  (data.map (fun d => cols.map (fun col => cellNum d col))) fit.1 fit.2) out
               else standardizerApply
                  (data.map (fun d => cols.map (fun col => cellNum d col))) fit.1 fit.2)
              ((km (if b then filterOutliers (standardizerApply
                  (data.map (fun d => cols.map (fun col => cellNum d col))) fit.1 fit.2) out
                else standardizerApply
                  (data.map (fun d => cols.map (fun col => cellNum d col))) fit.1 fit.2)
                (getSuggestedK km (if b then filterOutliers (standardizerApply
                  (data.map (fun d => cols.map (fun col => cellNum d col))) fit.1 fit.2) out
                else standardizerApply
                  (data.map (fun d => cols.map (fun col => cellNum d col))) fit.1 fit.2)).2).clusters)
              (getSuggestedK km (if b then filterOutliers (standardizerApply
                  (data.map (fun d => cols.map (fun col => cellNum d col))) fit.1 fit.2) out
                else standardizerApply
                  (data.map (fun d => cols.map (fun col => cellNum d col))) fit.1 fit.2)).2
              cols with
          | error e =>
              rw [hagg, exBind_err] at h
              cases h
          | ok statsPair =>
              rw [hagg, exBind_ok] at h
              refine ⟨fit, out, statsPair, rfl, hdet, ?_⟩
              exact ⟨hagg, (Except.ok.inj h).symm⟩

theorem exPure_eq_ok {ε α : Type} (a : α) : (pure a : Except ε α) = Except.ok a := rfl

theorem standardizerFit_ok_of_rows (m : List (List ℝ)) (nc : ℕ) (hm : m.length ≠ 0) :
    ∃ fit, standardizerFit m nc = .ok fit := by
  obtain ⟨ms, hms⟩ : ∃ ms, mapE (fun i => ssMean (columnOf m i)) (List.range nc) = .ok ms :=
    mapE_ok_exists (fun i _ => ⟨_, ssMean_ok (by rw [columnOf_length]; exact hm)⟩)
  obtain ⟨ss, hss⟩ : ∃ ss, mapE (fun i => do
      let s ← ssStandardDeviation (columnOf m i)
      pure (jsOr1 s)) (List.range nc) = .ok ss :=
    mapE_ok_exists (fun i _ => ⟨jsOr1 (popStdModel (columnOf m i)), by
      rw [ssStandardDeviation_ok (by rw [columnOf_length]; exact hm), exBind_ok]
      rfl⟩)
  refine ⟨(ms, ss), ?_⟩
  rw [standardizerFit, hms, exBind_ok, hss, exBind_ok]
  rfl

theorem performClustering_ok_two (data : List DataRow) (cols : List String) (b : Bool)
    (pca : PcaFn) (km : KmeansFn) (h2 : data.length = 2) :
    ∃ r, performClustering data cols b pca km = .ok r ∧
      r.excludeOutliers = b ∧ r.k = 2 ∧ r.metrics = [] := by
  have hfulllen : (data.map (fun d => cols.map (fun col => cellNum d col))).length = 2 := by
    rw [List.length_map]
    exact h2
  obtain ⟨fit, hfit⟩ := standardizerFit_ok_of_rows
    (data.map (fun d => cols.map (fun col => cellNum d col))) cols.length (by omega)
  have hsclen : (standardizerApply
      (data.map (fun d => cols.map (fun col => cellNum d col))) fit.1 fit.2).length = 2 := by
    rw [standardizerApply_length]
    exact hfulllen
  have hdet : detectOutliers pca (standardizerApply
      (data.map (fun d => cols.map (fun col => cellNum d col))) fit.1 fit.2) = .ok [] := by
    rw [detectOutliers, if_pos (by omega)]
  have hfinM : (if b then filterOutliers (standardizerApply
        (data.map (fun d => cols.map (fun col => cellNum d col))) fit.1 fit.2) ([] : List ℤ)
      else standardizerApply
        (data.map (fun d => cols.map (fun col => cellNum d col))) fit.1 fit.2) =
      standardizerApply (data.map (fun d => cols.map (fun col => cellNum d col)))
        fit.1 fit.2 := by
    cases b <;> simp [filterOutliers_nil]
  have hfinD : (if b then filterOutliers data ([] : List ℤ) else data) = data := by
    cases b <;> simp [filterOutliers_nil]
  have hsk : getSuggestedK km (standardizerApply
      (data.map (fun d => cols.map (fun col => cellNum d col))) fit.1 fit.2) = ([], 2) :=
    getSuggestedK_two km _ hsclen
  refine ⟨?r, ?heq, ?h1, ?h2, ?h3⟩
  case heq =>
    simp only [performClustering]
    rw [hfit, exBind_ok, hdet, exBind_ok, hfinM, hfinD, hsk, clusterStatsAgg_eval,
      exBind_ok, exPure_eq_ok]
    exact rfl
  case h1 => rfl
  case h2 => rfl
  case h3 => rfl

/-! ## Claims C1 and C2 -/

theorem exIsOk_of_eq_ok {e : Except String ClusterResult} {r : ClusterResult}
    (h : e = Except.ok r) : exIsOk e = true := by
  subst h
  rfl

theorem exKOf_of_eq_ok {e : Except String ClusterResult} {r : ClusterResult}
    (h : e = Except.ok r) : exKOf e = r.k := by
  subst h
  rfl

theorem exFlagOf_of_eq_ok {e : Except String ClusterResult} {r : ClusterResult}
    (h : e = Except.ok r) : exFlagOf e = r.excludeOutliers := by
  subst h
  rfl

theorem exPcaOf_of_eq_ok {e : Except String ClusterResult} {r : ClusterResult}
    (h : e = Except.ok r) : exPcaOf e = r.pcaData := by
  subst h
  rfl

theorem exOutOf_of_eq_ok {e : Except String ClusterResult} {r : ClusterResult}
    (h : e = Except.ok r) : exOutOf e = r.outlierIndices := by
  subst h
  rfl

theorem standardizerFit_err_nil (nc : ℕ) (hnc : nc ≠ 0) :
    standardizerFit ([] : List (List ℝ)) nc =
      .error "mean requires at least one data point" := by
  obtain ⟨m, hm⟩ : ∃ m, nc = m + 1 := ⟨nc - 1, by omega⟩
  subst hm
  simp only [standardizerFit]
  have hcons : mapE (fun i => ssMean (columnOf ([] : List (List ℝ)) i))
      (0 :: (List.range m).map Nat.succ) =
      Except.error "mean requires at least one data point" :=
    mapE_cons_err rfl
  rw [List.range_succ_eq_map, hcons, exBind_err]

theorem performClustering_err_nil (cols : List String) (b : Bool) (pca : PcaFn)
    (km : KmeansFn) (hc : cols ≠ []) :
    performClustering [] cols b pca km =
      .error "mean requires at least one data point" := by
  have hnc : cols.length ≠ 0 := by
    simp only [ne_eq, List.length_eq_zero]
    exact hc
  simp only [performClustering]
  rw [List.map_nil, standardizerFit_err_nil cols.length hnc, exBind_err]

/-- Claim C1 (corrected): performClustering has no below-minimum-population
guard.  On an empty row list (with at least one selected column) it does
fail, but with the library error thrown by ss.mean inside the Standardizer
fit, not an InvalidInput rejection; and on a 2-row input - below the
specification's minimum of 3 rows for k-selection - it does not reject at
all: it returns a complete result, with k = 2 from the empty sweep. -/
theorem c1_amended (cols : List String) (b : Bool) (pca : PcaFn) (km : KmeansFn)
    (hc : cols ≠ []) :
    performClustering [] cols b pca km =
      .error "mean requires at least one data point" ∧
    ∀ data : List DataRow, data.length = 2 →
      exIsOk (performClustering data cols b pca km) = true := by
  refine ⟨performClustering_err_nil cols b pca km hc, ?_⟩
  intro data h2
  obtain ⟨r, hr, -, -, -⟩ := performClustering_ok_two data cols b pca km h2
  exact exIsOk_of_eq_ok hr

/-- Claim C1 counterexample: a 2-row population, below the K-Selector
minimum of 3 rows that the claim says is rejected as InvalidInput, is not
rejected: performClustering returns a complete result with k = 2. -/
theorem c1_counterexample :
    exIsOk (performClustering [wRow 7, wRow 7] ["a"] false constPca constKmeans) = true ∧
    exKOf (performClustering [wRow 7, wRow 7] ["a"] false constPca constKmeans) = 2 := by
  obtain ⟨r, hr, -, hk, -⟩ :=
    performClustering_ok_two [wRow 7, wRow 7] ["a"] false constPca constKmeans rfl
  refine ⟨exIsOk_of_eq_ok hr, ?_⟩
  rw [exKOf_of_eq_ok hr]
  exact hk

/-- Claim C1 witness: the amended theorem applied to the selected column
list ["a"]. -/
theorem c1_witness :
    (["a"] : List String) ≠ [] ∧
    performClustering [] ["a"] false constPca constKmeans =
      .error "mean requires at least one data point" := by
  have h := c1_amended ["a"] false constPca constKmeans (by decide)
  exact ⟨by decide, h.1⟩

/-- Claim C2 (code bug): the secondary entry point
computeClusteringAtK(rows, cols, k, excludeOutliers) does not exist in the
code: performClustering takes (data, selectedCols, excludeOutliers) with no
k parameter, and the switchClusterMode call site passes
(data, selectedCols, k, mode), so k lands in the excludeOutliers parameter
and the mode flag is dropped.  Consequently, for any nonzero k, the run
uses excludeOutliers = true regardless of the mode argument, and the
resulting k is the one chosen by getSuggestedK (2 on a 2-row input), not
the caller-supplied k. -/
theorem c2_bug (data : List DataRow) (cols : List String) (pca : PcaFn)
    (km : KmeansFn) (k : ℕ) (mode : Bool) (hk : k ≠ 0) (h2 : data.length = 2) :
    exFlagOf (switchClusterMode data cols pca km k mode) = true ∧
    exKOf (switchClusterMode data cols pca km k mode) = 2 := by
  obtain ⟨r, hr, hfl, hkk, -⟩ :=
    performClustering_ok_two data cols (decide (k ≠ 0)) pca km h2
  have hr2 : switchClusterMode data cols pca km k mode = Except.ok r := by
    simp only [switchClusterMode]
    exact hr
  constructor
  · rw [exFlagOf_of_eq_ok hr2, hfl]
    exact decide_eq_true hk
  · rw [exKOf_of_eq_ok hr2]
    exact hkk

/-- Claim C2 witness: the bug theorem at k = 3, mode = false on a 2-row
input: the mode flag false is ignored (the run ends with
excludeOutliers = true) and the chosen k is 2, not the requested 3. -/
theorem c2_witness :
    (3 : ℕ) ≠ 0 ∧ ([wRow 7, wRow 9] : List DataRow).length = 2 ∧
    exFlagOf (switchClusterMode [wRow 7, wRow 9] ["a"] constPca constKmeans 3 false) =
      true ∧
    exKOf (switchClusterMode [wRow 7, wRow 9] ["a"] constPca constKmeans 3 false) = 2 := by
  have h := c2_bug [wRow 7, wRow 9] ["a"] constPca constKmeans 3 false (by decide) rfl
  exact ⟨by decide, rfl, h.1, h.2⟩

/-! ## Claim C9 -/

theorem pcaDataOf_length (proj : List (List ℝ)) (mi cl : List ℕ) (out : List ℤ) :
    (pcaDataOf proj mi cl out).length = proj.length := by
  rw [pcaDataOf, List.length_map, List.enum_length]

theorem pcaDataOf_mem {proj : List (List ℝ)} {mi cl : List ℕ} {out : List ℤ}
    {p : PcaPoint} (hp : p ∈ pcaDataOf proj mi cl out) :
    p.index < proj.length ∧
    p.isOutlier = out.contains ((p.index : ℤ)) ∧
    p.cluster = (if p.index ∈ mi then ((cl.getD (mi.indexOf p.index) 0 : ℕ) : ℤ)
      else -1) := by
  rw [pcaDataOf] at hp
  rcases List.mem_map.1 hp with ⟨q, hq, rfl⟩
  have hlt : q.1 < proj.length := by
    have h1 := List.mem_enum_iff_getElem?.1 hq
    rcases List.getElem?_eq_some.1 h1 with ⟨h, -⟩
    exact h
  exact ⟨hlt, rfl, rfl⟩

theorem bestFold_snd_ge (km : KmeansFn) (mx : List (List ℝ)) :
    ∀ (L : List ℕ) (st : Option ℝ × ℕ), 2 ≤ st.2 → (∀ k ∈ L, 2 ≤ k) →
      2 ≤ (L.foldl (bestStep km mx) st).2 := by
  intro L
  induction L with
  | nil => intro st h _; exact h
  | cons a t ih =>
      intro st h hall
      rw [List.foldl_cons]
      refine ih (bestStep km mx st a) ?_ (fun k hk => hall k (List.mem_cons_of_mem a hk))
      rcases st with ⟨o, bk⟩
      cases o with
      | none => exact hall a (List.mem_cons_self a t)
      | some m =>
          rw [bestStep_some]
          by_cases hcond : m < silAt km mx a
          · rw [if_pos hcond]
            exact hall a (List.mem_cons_self a t)
          · rw [if_neg hcond]
            exact h

theorem getSuggestedK_snd_ge_two (km : KmeansFn) (mx : List (List ℝ)) :
    2 ≤ (getSuggestedK km mx).2 := by
  show 2 ≤ ((kCandidates mx.length).foldl (sweepStep km mx) ([], none, 2)).2.2
  rw [sweep_fold_snd km mx (kCandidates mx.length) [] (none, 2)]
  exact bestFold_snd_ge km mx (kCandidates mx.length) (none, 2) (le_refl 2)
    (fun k hk => (kCandidates_mem.1 hk).1)

theorem contains_true_of_mem {l : List ℤ} {a : ℤ} (h : a ∈ l) :
    l.contains a = true :=
  List.elem_iff.2 h

theorem contains_false_of_not_mem {l : List ℤ} {a : ℤ} (h : a ∉ l) :
    l.contains a = false := by
  have he : List.elem a l = decide (a ∈ l) := List.elem_eq_mem a l
  rw [show l.contains a = List.elem a l from rfl, he, decide_eq_false h]

/-- Claim C9 (confirmed): in the full-population projection view (pcaData)
of a successful performClustering run - assuming the external k-means
returns one label below k per clustered row and the external PCA is
length-preserving - with excludeOutliers = false every row receives a
label in [0, k) and the per-label counts sum to the total row count; with
excludeOutliers = true every index in the returned outlier set has label
-1 and isOutlier = true, and every other index has a label in [0, k) with
isOutlier = false. -/
theorem c9_labels (data : List DataRow) (cols : List String) (b : Bool)
    (pca : PcaFn) (km : KmeansFn) (r : ClusterResult)
    (hpca : ∀ m : List (List ℝ), (pca m).length = m.length)
    (hkm : ∀ (m : List (List ℝ)) (k : ℕ), 2 ≤ k →
      (km m k).clusters.length = m.length ∧ ∀ c ∈ (km m k).clusters, c < k)
    (h : performClustering data cols b pca km = .ok r) :
    r.pcaData.length = data.length ∧
    (b = false →
      (∀ p ∈ r.pcaData, 0 ≤ p.cluster ∧ p.cluster < (r.k : ℤ)) ∧
      ((List.range r.k).map
        (fun c : ℕ => (r.pcaData.filter (fun p => p.cluster = (c : ℤ))).length)).sum =
        data.length) ∧
    (b = true →
      ∀ p ∈ r.pcaData,
        ((p.index : ℤ) ∈ r.outlierIndices → p.cluster = -1 ∧ p.isOutlier = true) ∧
        ((p.index : ℤ) ∉ r.outlierIndices →
          0 ≤ p.cluster ∧ p.cluster < (r.k : ℤ) ∧ p.isOutlier = false)) := by
  obtain ⟨fit, out, statsPair, hfit, hdet, hagg, hr⟩ :=
    performClustering_inv data cols b pca km r h
  set M := standardizerApply (data.map (fun d => cols.map (fun col => cellNum d col)))
    fit.1 fit.2 with hM
  set FM := if b then filterOutliers M out else M with hFM
  set K := (getSuggestedK km FM).2 with hK
  set CL := (km FM K).clusters with hCL
  set MI := mappingIndicesOf data.length b out with hMI
  have hpd : r.pcaData = pcaDataOf (pca M) MI CL out := by rw [hr]
  have hk : r.k = K := by rw [hr]
  have hout : r.outlierIndices = out := by rw [hr]
  have hMlen : M.length = data.length := by
    rw [hM, standardizerApply_length, List.length_map]
  have hKge : 2 ≤ K := by
    rw [hK]
    exact getSuggestedK_snd_ge_two km FM
  have hCLfacts := hkm FM K hKge
  have hCLlen : CL.length = FM.length := by
    rw [hCL]
    exact hCLfacts.1
  have hCLbound : ∀ c ∈ CL, c < K := by
    rw [hCL]
    exact hCLfacts.2
  have hlen : r.pcaData.length = data.length := by
    rw [hpd, pcaDataOf_length, hpca, hMlen]
  refine ⟨hlen, ?_, ?_⟩
  · intro hb
    subst hb
    have hMIr : MI = List.range data.length := by
      simp [hMI, mappingIndicesOf]
    have hFMM : FM = M := by
      simp [hFM]
    have hall : ∀ p ∈ r.pcaData, 0 ≤ p.cluster ∧ p.cluster < (r.k : ℤ) := by
      intro p hp
      rw [hpd] at hp
      obtain ⟨hidx, hput, hclu⟩ := pcaDataOf_mem hp
      rw [hpca, hMlen] at hidx
      have hmem : p.index ∈ MI := by
        rw [hMIr]
        exact List.mem_range.2 hidx
      rw [hclu, if_pos hmem, hk]
      refine ⟨by exact_mod_cast Nat.zero_le _, ?_⟩
      have hIdxOf : MI.indexOf p.index = p.index := by
        rw [hMIr]
        exact indexOf_range hidx
      rw [hIdxOf]
      have hplt : p.index < CL.length := by
        rw [hCLlen, hFMM, hMlen]
        exact hidx
      rw [List.getD_eq_get CL 0 hplt]
      exact_mod_cast hCLbound _ (CL.get_mem p.index hplt)
    refine ⟨hall, ?_⟩
    rw [counts_sum r.pcaData hall]
    exact hlen
  · intro hb
    subst hb
    have hMIr : MI = (List.range data.length).filter
        (fun i : ℕ => !(out.contains (i : ℤ))) := by
      simp [hMI, mappingIndicesOf]
    have hFMr : FM = filterOutliers M out := by
      simp [hFM]
    have hMIlen : MI.length = CL.length := by
      rw [hCLlen, hFMr, filterOutliers_length, hMlen, hMIr]
    intro p hp
    rw [hpd] at hp
    obtain ⟨hidx, hput, hclu⟩ := pcaDataOf_mem hp
    rw [hpca, hMlen] at hidx
    rw [hout]
    constructor
    · intro hin
      have hnm : p.index ∉ MI := by
        rw [hMIr]
        intro hmem
        rcases List.mem_filter.1 hmem with ⟨-, hpred⟩
        rw [contains_true_of_mem hin] at hpred
        simp at hpred
      rw [hclu, if_neg hnm]
      refine ⟨rfl, ?_⟩
      rw [hput, contains_true_of_mem hin]
    · intro hnin
      have hmem : p.index ∈ MI := by
        rw [hMIr]
        refine List.mem_filter.2 ⟨List.mem_range.2 hidx, ?_⟩
        simp [contains_false_of_not_mem hnin, hnin]
      rw [hclu, if_pos hmem, hk]
      have hplt : MI.indexOf p.index < CL.length := by
        rw [← hMIlen]
        exact List.indexOf_lt_length.2 hmem
      refine ⟨by exact_mod_cast Nat.zero_le _, ?_, ?_⟩
      · rw [List.getD_eq_get CL 0 hplt]
        exact_mod_cast hCLbound _ (CL.get_mem _ hplt)
      · rw [hput, contains_false_of_not_mem hnin]

/-- Claim C9 witness: the theorem applied to a concrete 2-row run with
excludeOutliers = false, the constant projection, and the mod-k labeller:
the projection view covers both rows and the per-label counts sum to 2. -/
theorem c9_witness :
    (exPcaOf (performClustering [wRow 0, wRow 5] ["a"] false constPca
      constKmeans)).length = 2 ∧
    ((List.range (exKOf (performClustering [wRow 0, wRow 5] ["a"] false constPca
        constKmeans))).map
      (fun c : ℕ => ((exPcaOf (performClustering [wRow 0, wRow 5] ["a"] false constPca
        constKmeans)).filter (fun p => p.cluster = (c : ℤ))).length)).sum = 2 := by
  obtain ⟨r, hr, -, -, -⟩ :=
    performClustering_ok_two [wRow 0, wRow 5] ["a"] false constPca constKmeans rfl
  have hpca : ∀ m : List (List ℝ), (constPca m).length = m.length := by
    intro m
    simp [constPca]
  have hkm : ∀ (m : List (List ℝ)) (k : ℕ), 2 ≤ k →
      (constKmeans m k).clusters.length = m.length ∧
      ∀ c ∈ (constKmeans m k).clusters, c < k := by
    intro m k hk2
    constructor
    · simp [constKmeans]
    · intro c hc
      simp only [constKmeans, List.mem_map] at hc
      obtain ⟨i, -, rfl⟩ := hc
      exact Nat.mod_lt _ (by omega)
  have h := c9_labels [wRow 0, wRow 5] ["a"] false constPca constKmeans r hpca hkm hr
  rw [exPcaOf_of_eq_ok hr, exKOf_of_eq_ok hr]
  exact ⟨h.1, (h.2.1 rfl).2⟩
